import Mathlib

/-!
Verification development for the outage-dashboard pipeline.

The first part embeds the JSON repair/validation pass of
`analyse_insights.py` (`analyze_insights`, lines 201-296): candidate
payloads are arbitrary JSON values (`JVal`), and the Python statements are
translated operation by operation, including the dynamic-typing behaviour
of `in`, indexing, `len`, slicing, arithmetic and the
`except (ValueError, TypeError)` handlers.  Python floats are modelled as
exact rationals (`Rat`), with `round` as round-half-to-even; numeric
string parsing covers sign/digits/fraction literals.

The second part embeds the HTML extraction layer of `webscrapper.py`
(`parse_latest_reports`, `parse_most_reported`, `parse_star_rating`,
`parse_datetime`): the relevant query results of the parsed document are
represented as explicit fields, and the two datetime parsers of the
standard library are parameters.
-/

/-- JSON values as produced by json.loads: null, bool, int, float, str,
list, dict (insertion ordered key/value pairs). -/
inductive JVal where
  | jnull
  | jbool (b : Bool)
  | jint (n : Int)
  | jfloat (q : Rat)
  | jstr (s : String)
  | jarr (xs : List JVal)
  | jobj (kvs : List (String × JVal))

mutual

/-- Boolean structural equality of JSON values. -/
def beqJ : JVal → JVal → Bool
  | .jnull, .jnull => true
  | .jbool a, .jbool b => a == b
  | .jint a, .jint b => a == b
  | .jfloat a, .jfloat b => a == b
  | .jstr a, .jstr b => a == b
  | .jarr a, .jarr b => beqL a b
  | .jobj a, .jobj b => beqO a b
  | _, _ => false

/-- Boolean equality of JSON value lists. -/
def beqL : List JVal → List JVal → Bool
  | [], [] => true
  | x :: xs, y :: ys => beqJ x y && beqL xs ys
  | _, _ => false

/-- Boolean equality of JSON object entry lists. -/
def beqO : List (String × JVal) → List (String × JVal) → Bool
  | [], [] => true
  | (k, x) :: xs, (k', y) :: ys => k == k' && beqJ x y && beqO xs ys
  | _, _ => false

end

mutual

theorem beqJ_iff : ∀ x y, beqJ x y = true ↔ x = y
  | .jnull, y => by cases y <;> simp [beqJ]
  | .jbool a, y => by cases y <;> simp [beqJ]
  | .jint a, y => by cases y <;> simp [beqJ]
  | .jfloat a, y => by cases y <;> simp [beqJ]
  | .jstr a, y => by cases y <;> simp [beqJ]
  | .jarr a, y => by cases y <;> simp [beqJ, beqL_iff a]
  | .jobj a, y => by cases y <;> simp [beqJ, beqO_iff a]

theorem beqL_iff : ∀ xs ys, beqL xs ys = true ↔ xs = ys
  | [], ys => by cases ys <;> simp [beqL]
  | x :: xs, ys => by
    cases ys with
    | nil => simp [beqL]
    | cons y ys => simp [beqL, beqJ_iff x y, beqL_iff xs ys]

theorem beqO_iff : ∀ xs ys, beqO xs ys = true ↔ xs = ys
  | [], ys => by cases ys <;> simp [beqO]
  | (k, x) :: xs, ys => by
    cases ys with
    | nil => simp [beqO]
    | cons p ys =>
      obtain ⟨k', y⟩ := p
      simp [beqO, beqJ_iff x y, beqO_iff xs ys, and_assoc]

end

instance : DecidableEq JVal := fun x y =>
  decidable_of_iff (beqJ x y = true) (beqJ_iff x y)

/-- Python exceptions that the modelled code can raise and does not catch. -/
inductive PyErr where
  | typeError
  | attributeError
  | keyError
  | zeroDivisionError
deriving DecidableEq

instance (α β : Type) [DecidableEq α] [DecidableEq β] : DecidableEq (Except α β) :=
  fun a b =>
    match a, b with
    | .ok x, .ok y => decidable_of_iff (x = y) (by simp)
    | .error x, .error y => decidable_of_iff (x = y) (by simp)
    | .ok _, .error _ => isFalse (by simp)
    | .error _, .ok _ => isFalse (by simp)

/-- Lookup in a Python dict modelled as an ordered association list
(first binding wins). -/
def objGet : List (String × JVal) → String → Option JVal
  | [], _ => none
  | (k', v) :: rest, k => if k' = k then some v else objGet rest k

/-- Assignment `d[k] = v` on a Python dict: replace the binding in place
when the key exists, append a fresh binding otherwise. -/
def objSet : List (String × JVal) → String → JVal → List (String × JVal)
  | [], k, v => [(k, v)]
  | (k', v') :: rest, k, v =>
    if k' = k then (k, v) :: rest else (k', v') :: objSet rest k v

/-- Substring test on character lists, used for Python `needle in hay`
when `hay` is a str. -/
def subChars (needle hay : List Char) : Bool :=
  hay.tails.any (fun t => needle.isPrefixOf t)

/-- Python membership `k in v` for a str key `k`: dict key lookup, list
element equality, str substring; TypeError on other values. -/
def pyContains (v : JVal) (k : String) : Except PyErr Bool :=
  match v with
  | .jobj kvs => .ok (kvs.any (fun p => p.1 == k))
  | .jarr xs => .ok (xs.any (fun x => x == JVal.jstr k))
  | .jstr s => .ok (subChars k.toList s.toList)
  | _ => .error .typeError

/-- Python indexing `v[k]` with a str key: dict lookup (KeyError when
missing), TypeError on anything else. -/
def pyIndex (v : JVal) (k : String) : Except PyErr JVal :=
  match v with
  | .jobj kvs =>
    match objGet kvs k with
    | some x => .ok x
    | none => .error .keyError
  | _ => .error .typeError

/-- Python assignment `v[k] = x` with a str key: dict update, TypeError on
anything else. -/
def pySetItem (v : JVal) (k : String) (x : JVal) : Except PyErr JVal :=
  match v with
  | .jobj kvs => .ok (.jobj (objSet kvs k x))
  | _ => .error .typeError

/-- Python `v.get(k, d)`: AttributeError unless `v` is a dict. -/
def pyGetDefault (v : JVal) (k : String) (d : JVal) : Except PyErr JVal :=
  match v with
  | .jobj kvs => .ok ((objGet kvs k).getD d)
  | _ => .error .attributeError

/-- Python `len(v)`: defined for str, list and dict only. -/
def pyLen (v : JVal) : Except PyErr Nat :=
  match v with
  | .jarr xs => .ok xs.length
  | .jstr s => .ok s.toList.length
  | .jobj kvs => .ok kvs.length
  | _ => .error .typeError

/-- Python slicing `v[:n]`: prefix of a list or str; TypeError otherwise
(a dict rejects slice keys). -/
def pySlice (v : JVal) (n : Nat) : Except PyErr JVal :=
  match v with
  | .jarr xs => .ok (.jarr (xs.take n))
  | .jstr s => .ok (.jstr (String.mk (s.toList.take n)))
  | _ => .error .typeError

/-- Python whitespace test used by str.strip. -/
def isSpaceChar (c : Char) : Bool :=
  c = ' ' || c = '\t' || c = '\n' || c = '\r' || c = '\x0b' || c = '\x0c'

/-- Python str.strip on a character list. -/
def trimChars (cs : List Char) : List Char :=
  ((cs.dropWhile isSpaceChar).reverse.dropWhile isSpaceChar).reverse

/-- Numeric value of a digit string. -/
def digitsToNat (cs : List Char) : Nat :=
  cs.foldl (fun a c => 10 * a + (c.toNat - 48)) 0

/-- Unsigned decimal body accepted by Python float(): digits, optionally a
dot and further digits, at least one digit overall. -/
def parseDecBody (cs : List Char) : Option Rat :=
  let ip := cs.takeWhile Char.isDigit
  let rest := cs.dropWhile Char.isDigit
  match rest with
  | [] => if ip.isEmpty then none else some ((digitsToNat ip : Int) : Rat)
  | '.' :: fp =>
    if fp.all Char.isDigit && !(ip.isEmpty && fp.isEmpty) then
      some ((digitsToNat ip : Rat) + (digitsToNat fp : Rat) / ((10 : Rat) ^ fp.length))
    else none
  | _ => none

/-- Python float() applied to a str: strip whitespace, optional sign, then
a decimal literal (exponent and infinity forms are outside the model). -/
def parseFloatStr (s : String) : Option Rat :=
  match trimChars s.toList with
  | '-' :: cs => (parseDecBody cs).map (fun q => -q)
  | '+' :: cs => parseDecBody cs
  | cs => parseDecBody cs

/-- Python int() applied to a str: strip whitespace, optional sign, then
digits only (a fractional literal raises ValueError). -/
def parseIntStr (s : String) : Option Int :=
  match trimChars s.toList with
  | '-' :: cs => if cs.isEmpty || !cs.all Char.isDigit then none
                 else some (-(digitsToNat cs : Int))
  | '+' :: cs => if cs.isEmpty || !cs.all Char.isDigit then none
                 else some (digitsToNat cs : Int)
  | cs => if cs.isEmpty || !cs.all Char.isDigit then none
          else some (digitsToNat cs : Int)

/-- Python float(v): ints, floats and bools convert, numeric strings
parse, anything else raises (ValueError/TypeError, both caught
identically by the modelled handlers). -/
def pyFloat : JVal → Option Rat
  | .jint n => some (n : Rat)
  | .jfloat q => some q
  | .jbool b => some (if b then 1 else 0)
  | .jstr s => parseFloatStr s
  | _ => none

/-- Truncation of a rational toward zero, the behaviour of Python int()
on a float. -/
def ratTrunc (q : Rat) : Int :=
  if q < 0 then ⌈q⌉ else ⌊q⌋

/-- Python int(v): ints and bools convert, floats truncate toward zero,
integer-literal strings parse, anything else raises. -/
def pyInt : JVal → Option Int
  | .jint n => some n
  | .jfloat q => some (ratTrunc q)
  | .jbool b => some (if b then 1 else 0)
  | .jstr s => parseIntStr s
  | _ => none

/-- View of a JSON value as a Python number (bool counts as int), keeping
track of whether the result is a float. -/
def numVal : JVal → Option JVal
  | .jint n => some (.jint n)
  | .jfloat q => some (.jfloat q)
  | .jbool b => some (.jint (if b then 1 else 0))
  | _ => none

/-- Python binary `+`: numeric addition (float-contagious), str and list
concatenation; TypeError otherwise. -/
def pyAdd (x y : JVal) : Except PyErr JVal :=
  match x, y with
  | .jstr a, .jstr b => .ok (.jstr (a ++ b))
  | .jarr a, .jarr b => .ok (.jarr (a ++ b))
  | _, _ =>
    match numVal x, numVal y with
    | some (.jint a), some (.jint b) => .ok (.jint (a + b))
    | some (.jint a), some (.jfloat b) => .ok (.jfloat (a + b))
    | some (.jfloat a), some (.jint b) => .ok (.jfloat (a + b))
    | some (.jfloat a), some (.jfloat b) => .ok (.jfloat (a + b))
    | _, _ => .error .typeError

/-- Python binary `-`: numeric only. -/
def pySub (x y : JVal) : Except PyErr JVal :=
  match numVal x, numVal y with
  | some (.jint a), some (.jint b) => .ok (.jint (a - b))
  | some (.jint a), some (.jfloat b) => .ok (.jfloat (a - b))
  | some (.jfloat a), some (.jint b) => .ok (.jfloat (a - b))
  | some (.jfloat a), some (.jfloat b) => .ok (.jfloat (a - b))
  | _, _ => .error .typeError

/-- Python binary `*`: numeric multiplication, plus sequence repetition
for str/list with an int.  Numbers are modelled as exact rationals; the
source computes IEEE-754 doubles, whose products can round differently
(model scope, recorded against the numeric claims). -/
def pyMul (x y : JVal) : Except PyErr JVal :=
  match x, y with
  | .jstr s, .jint n => .ok (.jstr (String.join (List.replicate n.toNat s)))
  | .jint n, .jstr s => .ok (.jstr (String.join (List.replicate n.toNat s)))
  | .jarr xs, .jint n => .ok (.jarr ((List.replicate n.toNat xs).flatten))
  | .jint n, .jarr xs => .ok (.jarr ((List.replicate n.toNat xs).flatten))
  | _, _ =>
    match numVal x, numVal y with
    | some (.jint a), some (.jint b) => .ok (.jint (a * b))
    | some (.jint a), some (.jfloat b) => .ok (.jfloat (a * b))
    | some (.jfloat a), some (.jint b) => .ok (.jfloat (a * b))
    | some (.jfloat a), some (.jfloat b) => .ok (.jfloat (a * b))
    | _, _ => .error .typeError

/-- Python true division `x / y`: numeric, always a float,
ZeroDivisionError on a zero divisor.  The quotient is modelled as an
exact rational; the source computes an IEEE-754 double, which can round
above or below the true value (model scope, recorded against the
numeric claims). -/
def pyDiv (x y : JVal) : Except PyErr JVal :=
  match numVal x, numVal y with
  | some vx, some vy =>
    let qx : Rat := match vx with | .jint a => (a : Rat) | .jfloat a => a | _ => 0
    let qy : Rat := match vy with | .jint b => (b : Rat) | .jfloat b => b | _ => 0
    if qy = 0 then .error .zeroDivisionError else .ok (.jfloat (qx / qy))
  | _, _ => .error .typeError

/-- Round half to even on rationals, the semantics of Python round(x). -/
def rhe (q : Rat) : Int :=
  if q - ⌊q⌋ < 1/2 then ⌊q⌋
  else if 1/2 < q - ⌊q⌋ then ⌊q⌋ + 1
  else if 2 ∣ ⌊q⌋ then ⌊q⌋ else ⌊q⌋ + 1

/-- Python round(x, 1) on a float, as an exact rational. -/
def roundTo1 (q : Rat) : Rat := (rhe (q * 10) : Rat) / 10

/-- Python round(x, 2) on a float, as an exact rational. -/
def roundTo2 (q : Rat) : Rat := (rhe (q * 100) : Rat) / 100

/-- Python round(v) without digits: an int, via round half to even;
TypeError on non-numbers. -/
def pyRoundInt (v : JVal) : Except PyErr Int :=
  match numVal v with
  | some (.jint n) => .ok n
  | some (.jfloat q) => .ok (rhe q)
  | _ => .error .typeError

/-- Repair of pain_index (line 213): `max(0.0, min(10.0,
round(float(x), 1)))`, with 0.0 as the fallback of the except handler. -/
def painRepair (v : JVal) : JVal :=
  match pyFloat v with
  | some q => .jfloat (max 0 (min 10 (roundTo1 q)))
  | none => .jfloat 0

/-- Repair of header.star_rating (line 219): `max(0.0, min(5.0,
round(float(x), 2)))`, fallback 0.0. -/
def starRepair (v : JVal) : JVal :=
  match pyFloat v with
  | some q => .jfloat (max 0 (min 5 (roundTo2 q)))
  | none => .jfloat 0

/-- Clamp of a sentiment component or a problem percent (lines 229, 246):
`max(0, min(100, int(round(float(x)))))`, fallback 0. -/
def clampSent (v : JVal) : JVal :=
  match pyFloat v with
  | some q => .jint (max 0 (min 100 (rhe q)))
  | none => .jint 0

/-- Repair of header.total_reports_24h (line 279): `max(0, int(x))`,
fallback 0. -/
def totalRepair (v : JVal) : JVal :=
  match pyInt v with
  | some n => .jint (max 0 n)
  | none => .jint 0

/-- One guarded in-place repair of key `key` of `dj`, the shape
`if key in dj and ...: dj[key] = ...` shared by several validator
paragraphs; `f` returns the value to write, or none for no write. -/
def guardedStep (key : String) (f : JVal → Except PyErr (Option JVal))
    (dj : JVal) : Except PyErr JVal := do
  let b ← pyContains dj key
  if b then do
    let v ← pyIndex dj key
    match ← f v with
    | some v' => pySetItem dj key v'
    | none => pure dj
  else pure dj

/-- Inner part of a nested two-key repair: the work done on the dict
`h = dj[k1]`, returning the updated inner dict when a write happened. -/
def nestedSlot (k2 : String) (f : JVal → Except PyErr (Option JVal))
    (h : JVal) : Except PyErr (Option JVal) := do
  let b2 ← pyContains h k2
  if b2 then do
    let v ← pyIndex h k2
    match ← f v with
    | some v' => do
      let h' ← pySetItem h k2 v'
      pure (some h')
    | none => pure none
  else pure none

/-- One guarded in-place repair of `dj[k1][k2]`, the shape
`if k1 in dj and k2 in dj[k1] and ...: dj[k1][k2] = ...`. -/
def nestedStep (k1 k2 : String) (f : JVal → Except PyErr (Option JVal)) :
    JVal → Except PyErr JVal :=
  guardedStep k1 (nestedSlot k2 f)

/-- The shared None-guard of the numeric repairs: `if x is not None:`
skip null, else write the repaired value. -/
def nullSkip (g : JVal → JVal) (v : JVal) : Except PyErr (Option JVal) :=
  if v = JVal.jnull then .ok none else .ok (some (g v))

/-- Slot action for pain_index: skip None, else write the repaired
value. -/
def fPain : JVal → Except PyErr (Option JVal) :=
  nullSkip painRepair

/-- Slot action for star_rating. -/
def fStar : JVal → Except PyErr (Option JVal) :=
  nullSkip starRepair

/-- Slot action for total_reports_24h. -/
def fTotal : JVal → Except PyErr (Option JVal) :=
  nullSkip totalRepair

/-- Slot action for a sentiment component or problem percent. -/
def fClamp : JVal → Except PyErr (Option JVal) :=
  nullSkip clampSent

/-- Slot action of the array-bound checks (lines 251-265):
`if len(v) > bound: v = v[:bound]`. -/
def truncSlot (bound : Nat) (v : JVal) : Except PyErr (Option JVal) :=
  match pyLen v with
  | .error e => .error e
  | .ok n =>
    if bound < n then
      match pySlice v bound with
      | .error e => .error e
      | .ok v' => .ok (some v')
    else .ok none

/-- Lines 211-215: pain_index clamp. -/
def painIndexStep : JVal → Except PyErr JVal :=
  guardedStep "pain_index" fPain

/-- Lines 217-221: header.star_rating clamp. -/
def starRatingStep : JVal → Except PyErr JVal :=
  nestedStep "header" "star_rating" fStar

/-- Lines 226-231: the clamp loop body for one sentiment key. -/
def clampKey (sent : JVal) (key : String) : Except PyErr JVal :=
  guardedStep key fClamp sent

/-- True when `total != 100` in Python (never raises). -/
def pyNe100 (v : JVal) : Bool :=
  match v with
  | .jint n => n ≠ 100
  | .jfloat q => q ≠ 100
  | _ => true

/-- Python `total > 0`: numeric comparison, TypeError otherwise. -/
def pyGt0 (v : JVal) : Except PyErr Bool :=
  match v with
  | .jint n => .ok (0 < n)
  | .jfloat q => .ok (0 < q)
  | .jbool b => .ok b
  | _ => .error .typeError

/-- Lines 236-239: the renormalization body, acting on the clamped
sentiment dict, given the (nonzero, not 100) total. -/
def sentRenorm (sent total : JVal) : Except PyErr JVal := do
  let scale ← pyDiv (.jint 100) total
  let a0 ← pyGetDefault sent "negative" (.jint 0)
  let am ← pyMul a0 scale
  let an ← pyRoundInt am
  let sent ← pySetItem sent "negative" (.jint an)
  let b0 ← pyGetDefault sent "neutral" (.jint 0)
  let bm ← pyMul b0 scale
  let bn ← pyRoundInt bm
  let sent ← pySetItem sent "neutral" (.jint bn)
  let na ← pyIndex sent "negative"
  let nb ← pyIndex sent "neutral"
  let d1 ← pySub (.jint 100) na
  let p ← pySub d1 nb
  pySetItem sent "positive" p

/-- Lines 226-239 acting on the sentiment dict itself: the clamp loop,
the total, and the conditional renormalization; the result is written
back into the payload (in Python the dict is shared, mutation in place).
-/
def sentSlotAct (sent : JVal) : Except PyErr (Option JVal) := do
  let sent ← clampKey sent "negative"
  let sent ← clampKey sent "neutral"
  let sent ← clampKey sent "positive"
  let va ← pyGetDefault sent "negative" (.jint 0)
  let vb ← pyGetDefault sent "neutral" (.jint 0)
  let vc ← pyGetDefault sent "positive" (.jint 0)
  let ab ← pyAdd va vb
  let total ← pyAdd ab vc
  if pyNe100 total then do
    let pos ← pyGt0 total
    if pos then do
      let sent ← sentRenorm sent total
      pure (some sent)
    else pure (some sent)
  else pure (some sent)

/-- Lines 224-239: clamp the three sentiment components, then, when their
sum is nonzero and not 100, rescale the first two with `scale =
100/total` and force the third to the residue `100 - negative -
neutral`. -/
def sentimentStep : JVal → Except PyErr JVal :=
  guardedStep "sentiment" sentSlotAct

/-- Lines 244-248 applied to one element of problem_distribution. -/
def problemDistElem : JVal → Except PyErr JVal :=
  guardedStep "percent" fClamp

/-- Slot action for problem_distribution (lines 242-248): iterate the
value (list elements, str characters, dict keys; TypeError otherwise) and
repair each element in place; only a list can actually be updated. -/
def pdSlot (v : JVal) : Except PyErr (Option JVal) :=
  match v with
  | .jarr xs => (xs.mapM problemDistElem).map (fun ys => some (.jarr ys))
  | .jstr s =>
    (s.toList.mapM (fun c => problemDistElem (.jstr (String.singleton c)))).map
      (fun _ => none)
  | .jobj kvs =>
    (kvs.mapM (fun p => problemDistElem (.jstr p.1))).map (fun _ => none)
  | _ => .error .typeError

/-- Lines 242-248: problem_distribution percent clamps. -/
def problemDistStep : JVal → Except PyErr JVal :=
  guardedStep "problem_distribution" pdSlot

/-- One of the array-length checks of lines 250-262. -/
def truncStep (key : String) (bound : Nat) : JVal → Except PyErr JVal :=
  guardedStep key (truncSlot bound)

/-- Lines 263-265: sentiment.samples truncation. -/
def samplesStep : JVal → Except PyErr JVal :=
  nestedStep "sentiment" "samples" (truncSlot 4)

/-- Allowed header.status values (line 270). -/
def allowedStatus : List JVal :=
  [.jstr "good", .jstr "moderate", .jstr "major issues"]

/-- Allowed header.status_color values (line 273). -/
def allowedStatusColor : List JVal :=
  [.jstr "green", .jstr "yellow", .jstr "red"]

/-- One enum check on the header dict: replace a present value outside
the allowed list with the default (`if h[key] not in allowed:
h[key] = dflt`, guarded by `key in h`). -/
def enumFix (h : JVal) (key : String) (allowed : List JVal) (dflt : JVal) :
    Except PyErr JVal :=
  guardedStep key (fun v => if v ∈ allowed then .ok none else .ok (some dflt)) h

/-- The two enum checks acting on the header dict. -/
def enumSlotAct (h : JVal) : Except PyErr (Option JVal) := do
  let h ← enumFix h "status" allowedStatus (.jstr "moderate")
  let h ← enumFix h "status_color" allowedStatusColor (.jstr "yellow")
  pure (some h)

/-- Lines 267-274: header.status and header.status_color enum checks
(the header dict is shared, mutation in place). -/
def enumStep : JVal → Except PyErr JVal :=
  guardedStep "header" enumSlotAct

/-- Lines 277-281: header.total_reports_24h floor at 0. -/
def totalReportsStep : JVal → Except PyErr JVal :=
  nestedStep "header" "total_reports_24h" fTotal

/-- The whole field-repair pass of analyze_insights (lines 211-281), in
source order.  A raised TypeError/AttributeError propagates (only
json.JSONDecodeError is caught by the surrounding try). -/
def analyze_insights_repair (dj : JVal) : Except PyErr JVal := do
  let dj ← painIndexStep dj
  let dj ← starRatingStep dj
  let dj ← sentimentStep dj
  let dj ← problemDistStep dj
  let dj ← truncStep "key_metrics" 5 dj
  let dj ← truncStep "active_outages" 10 dj
  let dj ← truncStep "geographic_hotspots" 5 dj
  let dj ← truncStep "recent_activity" 8 dj
  let dj ← truncStep "critical_insights" 4 dj
  let dj ← truncStep "recommendations" 3 dj
  let dj ← samplesStep dj
  let dj ← enumStep dj
  let dj ← totalReportsStep dj
  pure dj

/-- Line 202: strip a leading code fence, `re.sub` with pattern
caret ``` (?:json)? newline?. -/
def stripLeadingFence (cs : List Char) : List Char :=
  if ("```json\n").toList.isPrefixOf cs then cs.drop 8
  else if ("```json").toList.isPrefixOf cs then cs.drop 7
  else if ("```\n").toList.isPrefixOf cs then cs.drop 4
  else if ("```").toList.isPrefixOf cs then cs.drop 3
  else cs

/-- Line 203: strip a trailing code fence, `re.sub` with pattern
newline? ``` dollar, where dollar also matches just before a final
newline. -/
def stripTrailingFence (cs : List Char) : List Char :=
  let r := cs.reverse
  if ("\n```\n").toList.reverse.isPrefixOf r then ('\n' :: r.drop 5).reverse
  else if ("```\n").toList.reverse.isPrefixOf r then ('\n' :: r.drop 4).reverse
  else if ("\n```").toList.reverse.isPrefixOf r then (r.drop 4).reverse
  else if ("```").toList.reverse.isPrefixOf r then (r.drop 3).reverse
  else cs

/-- Lines 202-204: code-fence stripping then whitespace strip(). -/
def stripFences (s : String) : String :=
  String.mk (trimChars (stripTrailingFence (stripLeadingFence s.toList)))

mutual

/-- Serialization of a JSON value, modelling json.dumps (whitespace and
float formatting simplified; no claim depends on the exact text). -/
def dumpsJ : JVal → String
  | .jnull => "null"
  | .jbool b => if b then "true" else "false"
  | .jint n => toString n
  | .jfloat q =>
    if q.den = 1 then toString q.num ++ ".0"
    else toString q.num ++ "/" ++ toString q.den
  | .jstr s => "\"" ++ s ++ "\""
  | .jarr xs => "[" ++ dumpsArr xs ++ "]"
  | .jobj kvs => "\x7b" ++ dumpsObjBody kvs ++ "\x7d"

/-- Serialization of the elements of a JSON array. -/
def dumpsArr : List JVal → String
  | [] => ""
  | [x] => dumpsJ x
  | x :: xs => dumpsJ x ++ ", " ++ dumpsArr xs

/-- Serialization of the entries of a JSON object. -/
def dumpsObjBody : List (String × JVal) → String
  | [] => ""
  | [(k, v)] => "\"" ++ k ++ "\": " ++ dumpsJ v
  | (k, v) :: kvs => "\"" ++ k ++ "\": " ++ dumpsJ v ++ ", " ++ dumpsObjBody kvs

end

/-- Lines 201-296 of analyze_insights without the I/O shell: strip fences
and whitespace from the model output, then either parse and repair (the
repaired payload is re-serialized) or, when json.loads fails, keep the
stripped text itself.  The returned string is exactly what gets persisted
to reports/provider.json; a raised exception means nothing is written.
`parseJson` stands for json.loads (none models JSONDecodeError). -/
def analyze_insights_content (parseJson : String → Option JVal) (raw : String) :
    Except PyErr String :=
  let c := stripFences raw
  match parseJson c with
  | none => .ok c
  | some j => (analyze_insights_repair j).map dumpsJ

/-! ## webscrapper.py -/

/-- A td cell of a latest-reports row: its stripped text, and its nested
time element when present (outer Option), carrying an optional datetime
attribute (inner Option). -/
structure Td where
  txt : String
  timeEl : Option (Option String)
deriving DecidableEq

/-- Helper attr(el, name) of webscrapper.py applied to a time element and
its datetime attribute: None when the element is absent or lacks the
attribute. -/
def attrDatetime (timeEl : Option (Option String)) : Option String :=
  timeEl.bind id

/-- Best-effort replacement of "Z" by "+00:00" (str.replace), done on
character lists. -/
def replaceZ (cs : List Char) : List Char :=
  (cs.map (fun c => if c = 'Z' then "+00:00".toList else [c])).flatten

/-- parse_datetime of webscrapper.py: None for a missing or empty raw
value; otherwise try ISO parsing of the Z-normalized text, then the
title strptime format, and fall back to the raw text.  The two datetime
parsers of the Python standard library are parameters; each returns the
isoformat output on success. -/
def parse_datetime (isoParse fmtParse : String → Option String)
    (raw : Option String) : Option String :=
  match raw with
  | none => none
  | some r =>
    if r = "" then none
    else
      match isoParse (String.mk (replaceZ r.toList)) with
      | some s => some s
      | none =>
        match fmtParse r with
        | some s => some s
        | none => some r

/-- One entry of the latest-reports extraction. -/
structure LatestReport where
  city : String
  reason : String
  time_human : String
  time_iso : Option String
deriving DecidableEq

/-- parse_latest_reports of webscrapper.py: for each table row keep only
rows with exactly three td cells, and map them to city / reason / human
time / normalized datetime, in document order.  A row is given as its
list of td cells. -/
def parse_latest_reports (isoParse fmtParse : String → Option String)
    (rows : List (List Td)) : List LatestReport :=
  rows.filterMap (fun cells =>
    match cells with
    | [c0, c1, c2] =>
      some { city := c0.txt, reason := c1.txt, time_human := c2.txt,
             time_iso := parse_datetime isoParse fmtParse (attrDatetime c2.timeEl) }
    | _ => none)

/-- One li of the problem-breakdown list: text of its p element, text of
the span nested in p, and the alt attribute of its img element (outer
Option: element presence; inner: attribute presence). -/
structure DoughnutLi where
  pText : Option String
  pSpanText : Option String
  imgAlt : Option (Option String)
deriving DecidableEq

/-- Leftmost digit run immediately followed by a percent sign, the regex
search for digits-percent; returns the numeric value of the run. -/
def findPercentAux (acc : Option Nat) : List Char → Option Nat
  | [] => none
  | c :: rest =>
    if c.isDigit then findPercentAux (some ((acc.getD 0) * 10 + (c.toNat - 48))) rest
    else if c = '%' then
      match acc with
      | some n => some n
      | none => findPercentAux none rest
    else findPercentAux none rest

/-- The percent-token search of parse_most_reported. -/
def findPercentNum (s : String) : Option Nat :=
  findPercentAux none s.toList

/-- Removal of every "(NN%)" substring, the re.sub of
parse_most_reported; fuel-driven scan so that evaluation stays
structural (the initial fuel always suffices). -/
def stripPPAux : Nat → List Char → List Char
  | 0, l => l
  | _ + 1, [] => []
  | fuel + 1, c :: rest =>
    if c = '(' then
      let ds := rest.takeWhile Char.isDigit
      let rem := rest.dropWhile Char.isDigit
      match ds, rem with
      | _ :: _, '%' :: ')' :: tail => stripPPAux fuel tail
      | _, _ => c :: stripPPAux fuel rest
    else c :: stripPPAux fuel rest

/-- Label cleanup of parse_most_reported: drop inline "(NN%)" markers. -/
def stripParenPercent (cs : List Char) : List Char :=
  stripPPAux (cs.length + 1) cs

/-- One entry of the problem-breakdown extraction. -/
structure Problem where
  label : String
  percent : Option Nat
deriving DecidableEq

/-- parse_most_reported of webscrapper.py: for each list item, percent
from the first digits-percent token of the span text (falling back to
the img alt text), label from the p text with "(NN%)" markers removed
and whitespace stripped. -/
def parse_most_reported (lis : List DoughnutLi) : List Problem :=
  lis.map (fun li =>
    let label := li.pText.getD ""
    let spanText := li.pSpanText.getD ""
    let percentText := if spanText ≠ "" then spanText
                       else (attrDatetime li.imgAlt).getD ""
    { label := String.mk (trimChars (stripParenPercent label.toList)),
      percent := findPercentNum percentText })

/-- The star-rating container: text of the current sub-element and of the
count sub-element, when those elements are present. -/
structure StarText where
  current : Option String
  count : Option String
deriving DecidableEq

/-- Python `text or None`: empty text collapses to None. -/
def orNone (s : String) : Option String :=
  if s = "" then none else some s

/-- parse_star_rating of webscrapper.py: an empty dict when the container
is absent, else a dict with current and count (empty text becoming
None). -/
def parse_star_rating (container : Option StarText) :
    List (String × Option String) :=
  match container with
  | none => []
  | some c => [("current", orNone (c.current.getD "")),
               ("count", orNone (c.count.getD ""))]

/-- The regions of a parsed outage page used by the three extractors
under study: the star-rating container, the problem-breakdown list items,
and the latest-reports table rows. -/
structure Soup where
  starRatingText : Option StarText
  doughnutLis : List DoughnutLi
  latestReportRows : List (List Td)

/-- The corresponding fields of the intermediate record built by
parse_outage_page. -/
structure OutageRecordPart where
  star_rating : List (String × Option String)
  most_reported_problems : List Problem
  latest_reports : List LatestReport

/-- parse_outage_page of webscrapper.py restricted to the three fields
under study: each field comes from its own extractor reading its own
region. -/
def parse_outage_page_part (isoParse fmtParse : String → Option String)
    (soup : Soup) : OutageRecordPart :=
  { star_rating := parse_star_rating soup.starRatingText,
    most_reported_problems := parse_most_reported soup.doughnutLis,
    latest_reports := parse_latest_reports isoParse fmtParse soup.latestReportRows }

/-! ## Basic lemmas about the dict model -/

theorem objGet_objSet_self (kvs : List (String × JVal)) (k : String) (v : JVal) :
    objGet (objSet kvs k v) k = some v := by
  induction kvs with
  | nil => simp [objGet, objSet]
  | cons p rest ih =>
    obtain ⟨k', v'⟩ := p
    by_cases h : k' = k
    · subst h
      simp [objGet, objSet]
    · simp [objGet, objSet, h, ih]

theorem objGet_objSet_ne (kvs : List (String × JVal)) (k k' : String) (v : JVal)
    (h : k' ≠ k) : objGet (objSet kvs k v) k' = objGet kvs k' := by
  have h' : ¬ (k = k') := fun hh => h hh.symm
  induction kvs with
  | nil => simp [objGet, objSet, h']
  | cons p rest ih =>
    obtain ⟨k0, v0⟩ := p
    by_cases h0 : k0 = k
    · subst h0
      simp [objGet, objSet, h']
    · simp only [objSet, if_neg h0, objGet]
      by_cases h1 : k0 = k'
      · simp [h1]
      · simp [h1, ih]

theorem objSet_self (kvs : List (String × JVal)) (k : String) (v : JVal)
    (h : objGet kvs k = some v) : objSet kvs k v = kvs := by
  induction kvs with
  | nil => simp [objGet] at h
  | cons p rest ih =>
    obtain ⟨k0, v0⟩ := p
    by_cases h0 : k0 = k
    · subst h0
      simp only [objGet, if_pos] at h
      cases h
      simp [objSet]
    · simp only [objGet, if_neg h0] at h
      simp [objSet, h0, ih h]

theorem objSet_objSet (kvs : List (String × JVal)) (k : String) (v w : JVal) :
    objSet (objSet kvs k v) k w = objSet kvs k w := by
  induction kvs with
  | nil => simp [objSet]
  | cons p rest ih =>
    obtain ⟨k0, v0⟩ := p
    by_cases h0 : k0 = k
    · subst h0
      simp [objSet]
    · simp [objSet, h0, ih]

theorem any_key_eq_isSome (kvs : List (String × JVal)) (k : String) :
    (kvs.any (fun p => p.1 == k)) = (objGet kvs k).isSome := by
  induction kvs with
  | nil => simp [objGet]
  | cons p rest ih =>
    obtain ⟨k0, v0⟩ := p
    by_cases h0 : k0 = k
    · subst h0
      simp [objGet]
    · simp [objGet, h0, ih]

theorem objSet_keys (kvs : List (String × JVal)) (k : String) (v : JVal)
    (h : (objGet kvs k).isSome) : (objSet kvs k v).map Prod.fst = kvs.map Prod.fst := by
  induction kvs with
  | nil => simp [objGet] at h
  | cons p rest ih =>
    obtain ⟨k0, v0⟩ := p
    by_cases h0 : k0 = k
    · subst h0
      simp [objSet]
    · simp only [objGet, if_neg h0] at h
      simp [objSet, h0, ih h]

theorem objGet_objSet_isSome (kvs : List (String × JVal)) (k k' : String) (v : JVal) :
    (objGet (objSet kvs k v) k').isSome =
      ((objGet kvs k').isSome || (k' == k)) := by
  by_cases h : k' = k
  · subst h
    simp [objGet_objSet_self]
  · simp [objGet_objSet_ne kvs k k' v h, h]

/-! ## Round half to even -/

theorem rhe_intCast (n : Int) : rhe ((n : Rat)) = n := by
  have h : ((n : Rat)) - ⌊(n : Rat)⌋ < 1/2 := by
    rw [Int.floor_intCast]
    norm_num
  simp [rhe, h, Int.floor_intCast]

theorem floor_le_rhe (q : Rat) : ⌊q⌋ ≤ rhe q := by
  unfold rhe
  split
  · exact le_refl _
  · split
    · omega
    · split
      · exact le_refl _
      · omega

theorem rhe_le_floor_add_one (q : Rat) : rhe q ≤ ⌊q⌋ + 1 := by
  unfold rhe
  split
  · omega
  · split
    · omega
    · split
      · omega
      · omega

theorem rhe_nonneg {q : Rat} (h : 0 ≤ q) : 0 ≤ rhe q := by
  have h1 : (0 : Int) ≤ ⌊q⌋ := Int.le_floor.mpr (by exact_mod_cast h)
  exact le_trans h1 (floor_le_rhe q)

theorem rhe_le_of_le {q : Rat} {n : Int} (h : q ≤ (n : Rat)) : rhe q ≤ n := by
  have hle : ⌊q⌋ ≤ n := by
    have := Int.floor_le_floor h
    rwa [Int.floor_intCast] at this
  have hfl : (⌊q⌋ : Rat) ≤ q := Int.floor_le q
  unfold rhe
  split_ifs with h1 h2 h3
  · exact hle
  · by_cases he : ⌊q⌋ = n
    · exfalso
      have : ((⌊q⌋ : Int) : Rat) = (n : Rat) := by exact_mod_cast he
      linarith
    · omega
  · exact hle
  · by_cases he : ⌊q⌋ = n
    · exfalso
      have heq : q - ⌊q⌋ = 1/2 := by linarith
      have : ((⌊q⌋ : Int) : Rat) = (n : Rat) := by exact_mod_cast he
      linarith
    · omega

theorem rhe_mono {p q : Rat} (h : p ≤ q) : rhe p ≤ rhe q := by
  have hf : ⌊p⌋ ≤ ⌊q⌋ := Int.floor_le_floor h
  by_cases heq : ⌊p⌋ = ⌊q⌋
  · have hfr : p - (⌊p⌋ : Rat) ≤ q - (⌊q⌋ : Rat) := by
      have hc : ((⌊p⌋ : Int) : Rat) = ((⌊q⌋ : Int) : Rat) := by exact_mod_cast heq
      linarith
    unfold rhe
    rw [heq]
    split_ifs <;> first
      | omega
      | (exfalso; rw [heq] at hfr; linarith)
  · have hlt : ⌊p⌋ < ⌊q⌋ := lt_of_le_of_ne hf heq
    have h1 := rhe_le_floor_add_one p
    have h2 := floor_le_rhe q
    omega

theorem rhe_100_sub (x : Rat) : rhe (100 - x) = 100 - rhe x := by
  have hx : ((⌊x⌋ : Int) : Rat) + Int.fract x = x := Int.floor_add_fract x
  have hfr : Int.fract x = x - ⌊x⌋ := rfl
  by_cases hf0 : Int.fract x = 0
  · have hxF : x = ((⌊x⌋ : Int) : Rat) := by linarith
    have h100 : (100 : Rat) - x = ((100 - ⌊x⌋ : Int) : Rat) := by
      push_cast
      linarith
    have h2 : rhe x = ⌊x⌋ := by
      have hlt : x - ((⌊x⌋ : Int) : Rat) < 1/2 := by
        rw [← hfr, hf0]
        norm_num
      unfold rhe
      rw [if_pos hlt]
    rw [h100, rhe_intCast, h2]
  · have hfpos : 0 < Int.fract x := lt_of_le_of_ne (Int.fract_nonneg x) (Ne.symm hf0)
    have hflt : Int.fract x < 1 := Int.fract_lt_one x
    have hfloor : ⌊(100 : Rat) - x⌋ = 99 - ⌊x⌋ := by
      rw [Int.floor_eq_iff]
      constructor
      · push_cast
        linarith
      · push_cast
        linarith
    have hkey : (100 : Rat) - x - ((99 - ⌊x⌋ : Int) : Rat) = 1 - (x - ⌊x⌋) := by
      push_cast
      ring
    unfold rhe
    rw [hfloor]
    split_ifs <;> first
      | omega
      | (exfalso; rw [hkey] at *; linarith)

/-- Evaluation helper: rounding a rational strictly inside the lower half
of an integer gap. -/
theorem rhe_eq_down {q : Rat} {n : Int} (h1 : (n : Rat) ≤ q) (h2 : q < n + 1/2) :
    rhe q = n := by
  have hfl : ⌊q⌋ = n := by
    rw [Int.floor_eq_iff]
    constructor
    · exact h1
    · push_cast
      linarith
  have hlt : q - ((⌊q⌋ : Int) : Rat) < 1/2 := by
    rw [hfl]
    linarith
  unfold rhe
  rw [if_pos hlt]
  exact hfl

/-- Evaluation helper: rounding a rational strictly inside the upper half
of an integer gap. -/
theorem rhe_eq_up {q : Rat} {n : Int} (h1 : (n : Rat) + 1/2 < q) (h2 : q < n + 1) :
    rhe q = n + 1 := by
  have hfl : ⌊q⌋ = n := by
    rw [Int.floor_eq_iff]
    constructor
    · push_cast at h1 ⊢
      linarith
    · push_cast at h2 ⊢
      linarith
  have h3 : ¬ (q - ((⌊q⌋ : Int) : Rat) < 1/2) := by
    rw [hfl]
    push_cast
    linarith
  have h4 : (1/2 : Rat) < q - ((⌊q⌋ : Int) : Rat) := by
    rw [hfl]
    push_cast
    linarith
  unfold rhe
  rw [if_neg h3, if_pos h4, hfl]

/-! ## Range facts for the sentiment renormalization -/

theorem renorm_nonneg {a s : Int} (ha : 0 ≤ a) (hs : 0 < s) :
    0 ≤ rhe ((a : Rat) * (100 / (s : Rat))) := by
  apply rhe_nonneg
  have hs0 : (0 : Rat) < (s : Rat) := by exact_mod_cast hs
  positivity

theorem renorm_le_100 {a s : Int} (ha : a ≤ s) (hs : 0 < s) :
    rhe ((a : Rat) * (100 / (s : Rat))) ≤ 100 := by
  apply rhe_le_of_le
  have hs0 : (0 : Rat) < (s : Rat) := by exact_mod_cast hs
  rw [mul_div_assoc']
  rw [div_le_iff hs0]
  have : (a : Rat) ≤ (s : Rat) := by exact_mod_cast ha
  push_cast
  nlinarith

theorem renorm_sum_le_100 {a b s : Int} (ha : 0 ≤ a) (hb : 0 ≤ b)
    (hab : a + b ≤ s) (hs : 0 < s) :
    rhe ((a : Rat) * (100 / (s : Rat))) + rhe ((b : Rat) * (100 / (s : Rat))) ≤ 100 := by
  have hs0 : (0 : Rat) < (s : Rat) := by exact_mod_cast hs
  have hkey : (b : Rat) * (100 / (s : Rat)) ≤ 100 - (a : Rat) * (100 / (s : Rat)) := by
    rw [mul_div_assoc', mul_div_assoc', le_sub_iff_add_le, div_add_div_same, div_le_iff hs0]
    have : ((a : Rat) + b) ≤ (s : Rat) := by exact_mod_cast hab
    nlinarith
  have h1 : rhe ((b : Rat) * (100 / (s : Rat))) ≤
      rhe (100 - (a : Rat) * (100 / (s : Rat))) := rhe_mono hkey
  rw [rhe_100_sub] at h1
  omega

theorem renorm_sum_eq_100 {a b s : Int} (hab : a + b = s) (hs : 0 < s) :
    rhe ((a : Rat) * (100 / (s : Rat))) + rhe ((b : Rat) * (100 / (s : Rat))) = 100 := by
  have hs0 : (0 : Rat) < (s : Rat) := by exact_mod_cast hs
  have hkey : (b : Rat) * (100 / (s : Rat)) = 100 - (a : Rat) * (100 / (s : Rat)) := by
    have hb : (b : Rat) = (s : Rat) - (a : Rat) := by
      have : ((a + b : Int) : Rat) = (s : Rat) := by exact_mod_cast congrArg (fun z : Int => (z : Rat)) hab
      push_cast at this
      linarith
    rw [hb]
    field_simp
    ring
  rw [hkey, rhe_100_sub]
  omega

/-! ## Characterizations of the step combinators -/

theorem pyContains_obj (kvs : List (String × JVal)) (k : String) :
    pyContains (.jobj kvs) k = .ok ((objGet kvs k).isSome) := by
  simp [pyContains, any_key_eq_isSome]

/-- Evaluation of a guarded single-key step on a dict missing the key. -/
theorem guardedStep_obj_none (key : String) (f : JVal → Except PyErr (Option JVal))
    (kvs : List (String × JVal)) (hg : objGet kvs key = none) :
    guardedStep key f (.jobj kvs) = .ok (.jobj kvs) := by
  have hs : (objGet kvs key).isSome = false := by rw [hg]; rfl
  simp [guardedStep, pyContains_obj, hs, bind, Except.bind, pure, Except.pure]

/-- Evaluation of a guarded single-key step on a dict holding the key. -/
theorem guardedStep_obj_fval (key : String) (f : JVal → Except PyErr (Option JVal))
    (kvs : List (String × JVal)) (v : JVal) (hg : objGet kvs key = some v) :
    guardedStep key f (.jobj kvs) =
      Except.bind (f v) (fun o =>
        match o with
        | none => .ok (.jobj kvs)
        | some v' => .ok (.jobj (objSet kvs key v'))) := by
  have hs : (objGet kvs key).isSome = true := by rw [hg]; rfl
  cases hf : f v with
  | error err =>
    simp [guardedStep, pyContains_obj, hs, bind, Except.bind, pyIndex, hg, hf]
  | ok o =>
    cases o with
    | none =>
      simp [guardedStep, pyContains_obj, hs, bind, Except.bind, pyIndex, hg, hf,
        pure, Except.pure]
    | some v' =>
      simp [guardedStep, pyContains_obj, hs, bind, Except.bind, pyIndex, hg, hf,
        pySetItem]

theorem guardedStep_jarr (key : String) (f : JVal → Except PyErr (Option JVal))
    (xs : List JVal) :
    guardedStep key f (.jarr xs) =
      if xs.any (fun x => x == JVal.jstr key) then .error .typeError
      else .ok (.jarr xs) := by
  by_cases hb : xs.any (fun x => x == JVal.jstr key) <;>
    simp [guardedStep, pyContains, hb, bind, Except.bind, pyIndex, pure, Except.pure]

theorem guardedStep_jstr (key : String) (f : JVal → Except PyErr (Option JVal))
    (s : String) :
    guardedStep key f (.jstr s) =
      if subChars key.toList s.toList then .error .typeError
      else .ok (.jstr s) := by
  by_cases hb : subChars key.toList s.toList <;>
    simp [guardedStep, pyContains, hb, bind, Except.bind, pyIndex, pure, Except.pure]

theorem guardedStep_jnull (key : String) (f : JVal → Except PyErr (Option JVal)) :
    guardedStep key f .jnull = .error .typeError := by
  simp [guardedStep, pyContains, bind, Except.bind]

theorem guardedStep_jbool (key : String) (f : JVal → Except PyErr (Option JVal))
    (b : Bool) : guardedStep key f (.jbool b) = .error .typeError := by
  simp [guardedStep, pyContains, bind, Except.bind]

theorem guardedStep_jint (key : String) (f : JVal → Except PyErr (Option JVal))
    (n : Int) : guardedStep key f (.jint n) = .error .typeError := by
  simp [guardedStep, pyContains, bind, Except.bind]

theorem guardedStep_jfloat (key : String) (f : JVal → Except PyErr (Option JVal))
    (q : Rat) : guardedStep key f (.jfloat q) = .error .typeError := by
  simp [guardedStep, pyContains, bind, Except.bind]

/-- On a non-dict value a guarded step that succeeds does nothing (its
guard was false). -/
theorem guardedStep_nonobj (key : String) (f : JVal → Except PyErr (Option JVal))
    (d e : JVal) (hno : ∀ kvs, d ≠ .jobj kvs) (h : guardedStep key f d = .ok e) :
    e = d ∧ guardedStep key f d = .ok d := by
  cases d with
  | jobj kvs => exact absurd rfl (hno kvs)
  | jarr xs =>
    rw [guardedStep_jarr] at h ⊢
    by_cases hb : xs.any (fun x => x == JVal.jstr key)
    · rw [if_pos hb] at h; cases h
    · rw [if_neg hb] at h ⊢
      cases h
      exact ⟨rfl, rfl⟩
  | jstr s =>
    rw [guardedStep_jstr] at h ⊢
    by_cases hb : subChars key.toList s.toList
    · rw [if_pos hb] at h; cases h
    · rw [if_neg hb] at h ⊢
      cases h
      exact ⟨rfl, rfl⟩
  | jnull => rw [guardedStep_jnull] at h; cases h
  | jbool b => rw [guardedStep_jbool] at h; cases h
  | jint n => rw [guardedStep_jint] at h; cases h
  | jfloat q => rw [guardedStep_jfloat] at h; cases h

/-- What a successful guarded step establishes about its slot, plus the
frame: every other key is untouched and the key list is unchanged. -/
theorem guardedStep_est {key : String} {f : JVal → Except PyErr (Option JVal)}
    {kvs : List (String × JVal)} {e : JVal} (P : Option JVal → Prop)
    (hnone : P none)
    (hskip : ∀ v, objGet kvs key = some v → f v = .ok none → P (some v))
    (hwrite : ∀ v v', objGet kvs key = some v → f v = .ok (some v') → P (some v'))
    (h : guardedStep key f (.jobj kvs) = .ok e) :
    ∃ kvs', e = .jobj kvs' ∧ P (objGet kvs' key) ∧
      (∀ k, k ≠ key → objGet kvs' k = objGet kvs k) ∧
      kvs'.map Prod.fst = kvs.map Prod.fst ∧
      (objGet kvs' key = objGet kvs key ∨
        ∃ v v', objGet kvs key = some v ∧ objGet kvs' key = some v' ∧
          f v = .ok (some v')) := by
  cases hg : objGet kvs key with
  | none =>
    rw [guardedStep_obj_none key f kvs hg] at h
    cases h
    exact ⟨kvs, rfl, by rw [hg]; exact hnone, fun k _ => rfl, rfl, Or.inl hg⟩
  | some v =>
    rw [guardedStep_obj_fval key f kvs v hg] at h
    cases hf : f v with
    | error err =>
      rw [hf] at h
      simp [Except.bind] at h
    | ok o =>
      rw [hf] at h
      cases o with
      | none =>
        simp only [Except.bind] at h
        cases h
        exact ⟨kvs, rfl, by rw [hg]; exact hskip v hg hf, fun k _ => rfl, rfl,
          Or.inl hg⟩
      | some v' =>
        simp only [Except.bind] at h
        cases h
        refine ⟨objSet kvs key v', rfl, ?_, ?_, ?_, ?_⟩
        · rw [objGet_objSet_self]; exact hwrite v v' hg hf
        · intro k hk; exact objGet_objSet_ne kvs key k v' hk
        · exact objSet_keys kvs key v' (by rw [hg]; rfl)
        · exact Or.inr ⟨v, v', rfl, objGet_objSet_self kvs key v', hf⟩

/-- A guarded step is the identity on a dict whose slot already satisfies
the fixed-point property. -/
theorem guardedStep_suf {key : String} {f : JVal → Except PyErr (Option JVal)}
    {kvs : List (String × JVal)} (P : Option JVal → Prop)
    (hfix : ∀ v, P (some v) → f v = .ok none ∨ f v = .ok (some v))
    (hp : P (objGet kvs key)) :
    guardedStep key f (.jobj kvs) = .ok (.jobj kvs) := by
  cases hg : objGet kvs key with
  | none => exact guardedStep_obj_none key f kvs hg
  | some v =>
    rw [guardedStep_obj_fval key f kvs v hg]
    rw [hg] at hp
    rcases hfix v hp with hf | hf
    · rw [hf]
      rfl
    · rw [hf]
      simp only [Except.bind, objSet_self kvs key v hg]

/-- Rerun of a successful guarded step on its own output is the identity,
provided a written value is a fixed point of the slot action. -/
theorem guardedStep_self {key : String} {f : JVal → Except PyErr (Option JVal)}
    {d e : JVal}
    (hidem : ∀ v v', f v = .ok (some v') →
      f v' = .ok none ∨ f v' = .ok (some v'))
    (h : guardedStep key f d = .ok e) : guardedStep key f e = .ok e := by
  cases d with
  | jobj kvs =>
    have hest := guardedStep_est
      (fun o => o = none ∨ ∃ v, o = some v ∧ (f v = .ok none ∨ f v = .ok (some v)))
      (Or.inl rfl)
      (fun v _ hf => Or.inr ⟨v, rfl, Or.inl hf⟩)
      (fun v v' _ hf => Or.inr ⟨v', rfl, hidem v v' hf⟩) h
    obtain ⟨kvs', he, hP, _, _, _⟩ := hest
    subst he
    apply guardedStep_suf (fun o => o = none ∨ ∃ v, o = some v ∧
      (f v = .ok none ∨ f v = .ok (some v)))
    · intro v hv
      rcases hv with hv | ⟨w, hw, hfw⟩
      · exact absurd hv (by simp)
      · cases hw; exact hfw
    · exact hP
  | jnull =>
    obtain ⟨he, hd⟩ := guardedStep_nonobj _ _ _ _ (by intro kvs hk; cases hk) h
    rw [he]; exact hd
  | jbool b =>
    obtain ⟨he, hd⟩ := guardedStep_nonobj _ _ _ _ (by intro kvs hk; cases hk) h
    rw [he]; exact hd
  | jint n =>
    obtain ⟨he, hd⟩ := guardedStep_nonobj _ _ _ _ (by intro kvs hk; cases hk) h
    rw [he]; exact hd
  | jfloat q =>
    obtain ⟨he, hd⟩ := guardedStep_nonobj _ _ _ _ (by intro kvs hk; cases hk) h
    rw [he]; exact hd
  | jstr s =>
    obtain ⟨he, hd⟩ := guardedStep_nonobj _ _ _ _ (by intro kvs hk; cases hk) h
    rw [he]; exact hd
  | jarr xs =>
    obtain ⟨he, hd⟩ := guardedStep_nonobj _ _ _ _ (by intro kvs hk; cases hk) h
    rw [he]; exact hd

/-- Relation between two optional slot values: either unchanged, or both
dicts agreeing outside the listed keys and with the same key list. -/
def HFrameKeys (ws : List String) (o o' : Option JVal) : Prop :=
  o' = o ∨ ∃ hk hk', o = some (.jobj hk) ∧ o' = some (.jobj hk') ∧
    (∀ s, s ∉ ws → objGet hk' s = objGet hk s) ∧
    hk'.map Prod.fst = hk.map Prod.fst

/-- Fixed-point shape of the outer slot of a nested two-key step: absent,
or a dict whose inner slot satisfies Q, or a non-dict on which the inner
membership test is false. -/
def NestOK (k2 : String) (Q : Option JVal → Prop) : Option JVal → Prop :=
  fun o => o = none ∨
    (∃ hk, o = some (.jobj hk) ∧ Q (objGet hk k2)) ∨
    (∃ v, o = some v ∧ (∀ hk, v ≠ .jobj hk) ∧ pyContains v k2 = .ok false)

theorem nestedSlot_obj_none (k2 : String) (f : JVal → Except PyErr (Option JVal))
    (hk : List (String × JVal)) (hsub : objGet hk k2 = none) :
    nestedSlot k2 f (.jobj hk) = .ok none := by
  have hs : (objGet hk k2).isSome = false := by rw [hsub]; rfl
  simp [nestedSlot, pyContains_obj, hs, bind, Except.bind, pure, Except.pure]

theorem nestedSlot_obj_fval (k2 : String) (f : JVal → Except PyErr (Option JVal))
    (hk : List (String × JVal)) (v : JVal) (hsub : objGet hk k2 = some v) :
    nestedSlot k2 f (.jobj hk) =
      Except.bind (f v) (fun o =>
        match o with
        | none => .ok none
        | some v' => .ok (some (.jobj (objSet hk k2 v')))) := by
  have hs : (objGet hk k2).isSome = true := by rw [hsub]; rfl
  cases hf : f v with
  | error err =>
    simp [nestedSlot, pyContains_obj, hs, hsub, pyIndex, bind, Except.bind, hf]
  | ok o =>
    cases o with
    | none =>
      simp [nestedSlot, pyContains_obj, hs, hsub, pyIndex, bind, Except.bind, hf,
        pure, Except.pure]
    | some v' =>
      simp [nestedSlot, pyContains_obj, hs, hsub, pyIndex, bind, Except.bind, hf,
        pySetItem, pure, Except.pure]

theorem nestedSlot_jarr (k2 : String) (f : JVal → Except PyErr (Option JVal))
    (xs : List JVal) :
    nestedSlot k2 f (.jarr xs) =
      if xs.any (fun x => x == JVal.jstr k2) then .error .typeError
      else .ok none := by
  by_cases hb : xs.any (fun x => x == JVal.jstr k2) <;>
    simp [nestedSlot, pyContains, hb, bind, Except.bind, pyIndex, pure, Except.pure]

theorem nestedSlot_jstr (k2 : String) (f : JVal → Except PyErr (Option JVal))
    (s : String) :
    nestedSlot k2 f (.jstr s) =
      if subChars k2.toList s.toList then .error .typeError
      else .ok none := by
  by_cases hb : subChars k2.toList s.toList <;>
    simp [nestedSlot, pyContains, hb, bind, Except.bind, pyIndex, pure, Except.pure]

theorem nestedSlot_scalar (k2 : String) (f : JVal → Except PyErr (Option JVal))
    (v : JVal) (hs : v = .jnull ∨ (∃ b, v = .jbool b) ∨ (∃ n, v = .jint n) ∨
      (∃ q, v = .jfloat q)) :
    nestedSlot k2 f v = .error .typeError := by
  rcases hs with rfl | ⟨b, rfl⟩ | ⟨n, rfl⟩ | ⟨q, rfl⟩ <;>
    simp [nestedSlot, pyContains, bind, Except.bind]

/-- Inversion of a successful inner action that wrote nothing. -/
theorem nestedSlot_none_inv {k2 : String} {f : JVal → Except PyErr (Option JVal)}
    {h : JVal} (Q : Option JVal → Prop)
    (hnone : Q none)
    (hskip : ∀ v, f v = .ok none → Q (some v))
    (hh : nestedSlot k2 f h = .ok none) :
    NestOK k2 Q (some h) := by
  cases h with
  | jobj hk =>
    cases hsub : objGet hk k2 with
    | none => exact Or.inr (Or.inl ⟨hk, rfl, by rw [hsub]; exact hnone⟩)
    | some v =>
      rw [nestedSlot_obj_fval k2 f hk v hsub] at hh
      cases hf : f v with
      | error err => rw [hf] at hh; cases hh
      | ok o =>
        rw [hf] at hh
        cases o with
        | none =>
          exact Or.inr (Or.inl ⟨hk, rfl, by rw [hsub]; exact hskip v hf⟩)
        | some v' => simp [Except.bind] at hh
  | jarr xs =>
    rw [nestedSlot_jarr] at hh
    by_cases hb : xs.any (fun x => x == JVal.jstr k2)
    · rw [if_pos hb] at hh; cases hh
    · exact Or.inr (Or.inr ⟨_, rfl, (by intro hk hc; cases hc),
        (by simp only [pyContains, Except.ok.injEq]
            rw [← Bool.not_eq_true]
            exact hb)⟩)
  | jstr s =>
    rw [nestedSlot_jstr] at hh
    by_cases hb : subChars k2.toList s.toList
    · rw [if_pos hb] at hh; cases hh
    · exact Or.inr (Or.inr ⟨_, rfl, (by intro hk hc; cases hc),
        (by simp only [pyContains, Except.ok.injEq]
            rw [← Bool.not_eq_true]
            exact hb)⟩)
  | jnull => rw [nestedSlot_scalar k2 f _ (Or.inl rfl)] at hh; cases hh
  | jbool b =>
    rw [nestedSlot_scalar k2 f _ (Or.inr (Or.inl ⟨b, rfl⟩))] at hh; cases hh
  | jint n =>
    rw [nestedSlot_scalar k2 f _ (Or.inr (Or.inr (Or.inl ⟨n, rfl⟩)))] at hh; cases hh
  | jfloat q =>
    rw [nestedSlot_scalar k2 f _ (Or.inr (Or.inr (Or.inr ⟨q, rfl⟩)))] at hh; cases hh

/-- Inversion of a successful inner action that wrote the inner dict. -/
theorem nestedSlot_write_inv {k2 : String} {f : JVal → Except PyErr (Option JVal)}
    {h h' : JVal} (hh : nestedSlot k2 f h = .ok (some h')) :
    ∃ hk v v', h = .jobj hk ∧ objGet hk k2 = some v ∧ f v = .ok (some v') ∧
      h' = .jobj (objSet hk k2 v') := by
  cases h with
  | jobj hk =>
    cases hsub : objGet hk k2 with
    | none => rw [nestedSlot_obj_none k2 f hk hsub] at hh; cases hh
    | some v =>
      rw [nestedSlot_obj_fval k2 f hk v hsub] at hh
      cases hf : f v with
      | error err => rw [hf] at hh; cases hh
      | ok o =>
        rw [hf] at hh
        cases o with
        | none => simp [Except.bind] at hh
        | some v' =>
          simp only [Except.bind] at hh
          cases hh
          exact ⟨hk, v, v', rfl, hsub, hf, rfl⟩
  | jarr xs =>
    rw [nestedSlot_jarr] at hh
    by_cases hb : xs.any (fun x => x == JVal.jstr k2)
    · rw [if_pos hb] at hh; cases hh
    · rw [if_neg hb] at hh; cases hh
  | jstr s =>
    rw [nestedSlot_jstr] at hh
    by_cases hb : subChars k2.toList s.toList
    · rw [if_pos hb] at hh; cases hh
    · rw [if_neg hb] at hh; cases hh
  | jnull => rw [nestedSlot_scalar k2 f _ (Or.inl rfl)] at hh; cases hh
  | jbool b =>
    rw [nestedSlot_scalar k2 f _ (Or.inr (Or.inl ⟨b, rfl⟩))] at hh; cases hh
  | jint n =>
    rw [nestedSlot_scalar k2 f _ (Or.inr (Or.inr (Or.inl ⟨n, rfl⟩)))] at hh; cases hh
  | jfloat q =>
    rw [nestedSlot_scalar k2 f _ (Or.inr (Or.inr (Or.inr ⟨q, rfl⟩)))] at hh; cases hh

/-- The inner action is the identity on a value whose shape is already
fixed. -/
theorem nestedSlot_suf {k2 : String} {f : JVal → Except PyErr (Option JVal)}
    {h : JVal} (Q : Option JVal → Prop)
    (hfix : ∀ v, Q (some v) → f v = .ok none ∨ f v = .ok (some v))
    (hp : NestOK k2 Q (some h)) :
    nestedSlot k2 f h = .ok none ∨ nestedSlot k2 f h = .ok (some h) := by
  rcases hp with hp | ⟨hk, hp, hq⟩ | ⟨v, hp, hno, hc⟩
  · cases hp
  · cases hp
    cases hsub : objGet hk k2 with
    | none => exact Or.inl (nestedSlot_obj_none k2 f hk hsub)
    | some v =>
      rw [hsub] at hq
      rcases hfix v hq with hf | hf
      · left
        rw [nestedSlot_obj_fval k2 f hk v hsub, hf]
        rfl
      · right
        rw [nestedSlot_obj_fval k2 f hk v hsub, hf]
        simp only [Except.bind, objSet_self hk k2 v hsub]
  · cases hp
    cases h with
    | jobj hk => exact absurd rfl (hno hk)
    | jarr xs =>
      left
      rw [nestedSlot_jarr]
      have hfalse : (xs.any fun x => x == JVal.jstr k2) = false := by
        simpa [pyContains] using hc
      rw [hfalse]
      rfl
    | jstr s =>
      left
      rw [nestedSlot_jstr]
      have hfalse : subChars k2.toList s.toList = false := by
        simpa [pyContains] using hc
      rw [hfalse]
      rfl
    | jnull => simp [pyContains] at hc
    | jbool b => simp [pyContains] at hc
    | jint n => simp [pyContains] at hc
    | jfloat q => simp [pyContains] at hc

/-- What a successful nested step establishes: the outer slot reaches its
fixed-point shape, all other keys and the key lists are untouched, and
the outer slot changes only at the inner key. -/
theorem nestedStep_est {k1 k2 : String} {f : JVal → Except PyErr (Option JVal)}
    {kvs : List (String × JVal)} {e : JVal} (Q : Option JVal → Prop)
    (hnone : Q none)
    (hskip : ∀ v, f v = .ok none → Q (some v))
    (hwrite : ∀ v v', f v = .ok (some v') → Q (some v'))
    (h : nestedStep k1 k2 f (.jobj kvs) = .ok e) :
    ∃ kvs', e = .jobj kvs' ∧ NestOK k2 Q (objGet kvs' k1) ∧
      (∀ k, k ≠ k1 → objGet kvs' k = objGet kvs k) ∧
      kvs'.map Prod.fst = kvs.map Prod.fst ∧
      HFrameKeys [k2] (objGet kvs k1) (objGet kvs' k1) := by
  obtain ⟨kvs', he, hP, hfr, hkeys, hrel⟩ :=
    guardedStep_est (NestOK k2 Q)
      (Or.inl rfl)
      (fun v _ hf => nestedSlot_none_inv Q hnone hskip hf)
      (fun v v' _ hf => by
        obtain ⟨hk, w, w', rfl, hsub, hfw, rfl⟩ := nestedSlot_write_inv hf
        exact Or.inr (Or.inl ⟨objSet hk k2 w', rfl,
          by rw [objGet_objSet_self]; exact hwrite w w' hfw⟩)) h
  refine ⟨kvs', he, hP, hfr, hkeys, ?_⟩
  rcases hrel with hrel | ⟨v, v', hg, hg', hf⟩
  · exact Or.inl hrel
  · obtain ⟨hk, w, w', rfl, hsub, hfw, rfl⟩ := nestedSlot_write_inv hf
    refine Or.inr ⟨hk, objSet hk k2 w', hg, hg', ?_, ?_⟩
    · intro s hs
      have hs2 : s ≠ k2 := by
        intro hc
        exact hs (by rw [hc]; exact List.mem_singleton.mpr rfl)
      exact objGet_objSet_ne hk k2 s w' hs2
    · exact objSet_keys hk k2 w' (by rw [hsub]; rfl)

/-- A nested step is the identity on a dict whose outer slot already has
its fixed-point shape. -/
theorem nestedStep_suf {k1 k2 : String} {f : JVal → Except PyErr (Option JVal)}
    {kvs : List (String × JVal)} (Q : Option JVal → Prop)
    (hfix : ∀ v, Q (some v) → f v = .ok none ∨ f v = .ok (some v))
    (hp : NestOK k2 Q (objGet kvs k1)) :
    nestedStep k1 k2 f (.jobj kvs) = .ok (.jobj kvs) :=
  guardedStep_suf (NestOK k2 Q) (fun v hv => nestedSlot_suf Q hfix hv) hp

/-- NestOK is stable under a frame that avoids the inner key. -/
theorem NestOK_frame {k2 : String} {Q : Option JVal → Prop} {ws : List String}
    {o o' : Option JVal} (hk2 : k2 ∉ ws) (hQ : NestOK k2 Q o)
    (hf : HFrameKeys ws o o') : NestOK k2 Q o' := by
  rcases hf with rfl | ⟨hk, hk', ho, ho', hsub, _⟩
  · exact hQ
  · rcases hQ with hq | ⟨hk0, hq, hq2⟩ | ⟨v, hq, hno, _⟩
    · rw [hq] at ho; cases ho
    · rw [hq] at ho
      cases ho
      refine Or.inr (Or.inl ⟨hk', ho', ?_⟩)
      rw [hsub k2 hk2]
      exact hq2
    · rw [hq] at ho
      cases ho
      exact absurd rfl (hno hk)

/-! ## Fixed points of the numeric repairs -/

theorem clamp_fix {α : Type} [LinearOrder α] {a b r : α} (h1 : a ≤ r) (h2 : r ≤ b) :
    max a (min b r) = r := by
  rw [min_eq_right h2, max_eq_right h1]

theorem clamp_low {α : Type} [LinearOrder α] (a b x : α) : a ≤ max a (min b x) :=
  le_max_left a _

theorem clamp_high {α : Type} [LinearOrder α] {a b : α} (x : α) (hab : a ≤ b) :
    max a (min b x) ≤ b :=
  max_le hab (min_le_left b x)

theorem roundTo1_fix (z : Int) : roundTo1 ((z : Rat)/10) = (z : Rat)/10 := by
  unfold roundTo1
  have h : ((z : Rat)/10) * 10 = (z : Rat) := by field_simp
  rw [h, rhe_intCast]

theorem roundTo2_fix (z : Int) : roundTo2 ((z : Rat)/100) = (z : Rat)/100 := by
  unfold roundTo2
  have h : ((z : Rat)/100) * 100 = (z : Rat) := by field_simp
  rw [h, rhe_intCast]

theorem painRepair_spec (v : JVal) :
    ∃ r : Rat, painRepair v = .jfloat r ∧ 0 ≤ r ∧ r ≤ 10 ∧
      (∃ z : Int, r = (z : Rat)/10) ∧ (pyFloat v = none → r = 0) := by
  unfold painRepair
  cases hf : pyFloat v with
  | none => exact ⟨0, rfl, le_refl 0, by norm_num, ⟨0, by norm_num⟩, fun _ => rfl⟩
  | some q =>
    refine ⟨max 0 (min 10 (roundTo1 q)), rfl, clamp_low 0 10 _,
      clamp_high _ (by norm_num), ?_, fun hc => by cases hc⟩
    rcases le_total (roundTo1 q) (10 : Rat) with h10 | h10
    · rcases le_total (0 : Rat) (roundTo1 q) with h0 | h0
      · refine ⟨rhe (q * 10), ?_⟩
        rw [clamp_fix h0 h10]
        rfl
      · refine ⟨0, ?_⟩
        rw [min_eq_right h10, max_eq_left h0]
        norm_num
    · refine ⟨100, ?_⟩
      rw [min_eq_left h10]
      norm_num

theorem painRepair_idem (v : JVal) : painRepair (painRepair v) = painRepair v := by
  obtain ⟨r, he, h0, h10, ⟨z, hz⟩, _⟩ := painRepair_spec v
  rw [he]
  show painRepair (.jfloat r) = .jfloat r
  unfold painRepair
  show (match (some r : Option Rat) with
    | some q => JVal.jfloat (max 0 (min 10 (roundTo1 q)))
    | none => JVal.jfloat 0) = .jfloat r
  simp only
  rw [hz, roundTo1_fix, ← hz, clamp_fix h0 h10]

theorem starRepair_spec (v : JVal) :
    ∃ r : Rat, starRepair v = .jfloat r ∧ 0 ≤ r ∧ r ≤ 5 ∧
      (∃ z : Int, r = (z : Rat)/100) ∧ (pyFloat v = none → r = 0) := by
  unfold starRepair
  cases hf : pyFloat v with
  | none => exact ⟨0, rfl, le_refl 0, by norm_num, ⟨0, by norm_num⟩, fun _ => rfl⟩
  | some q =>
    refine ⟨max 0 (min 5 (roundTo2 q)), rfl, clamp_low 0 5 _,
      clamp_high _ (by norm_num), ?_, fun hc => by cases hc⟩
    rcases le_total (roundTo2 q) (5 : Rat) with h5 | h5
    · rcases le_total (0 : Rat) (roundTo2 q) with h0 | h0
      · refine ⟨rhe (q * 100), ?_⟩
        rw [clamp_fix h0 h5]
        rfl
      · refine ⟨0, ?_⟩
        rw [min_eq_right h5, max_eq_left h0]
        norm_num
    · refine ⟨500, ?_⟩
      rw [min_eq_left h5]
      norm_num

theorem starRepair_idem (v : JVal) : starRepair (starRepair v) = starRepair v := by
  obtain ⟨r, he, h0, h5, ⟨z, hz⟩, _⟩ := starRepair_spec v
  rw [he]
  show starRepair (.jfloat r) = .jfloat r
  unfold starRepair
  show (match (some r : Option Rat) with
    | some q => JVal.jfloat (max 0 (min 5 (roundTo2 q)))
    | none => JVal.jfloat 0) = .jfloat r
  simp only
  rw [hz, roundTo2_fix, ← hz, clamp_fix h0 h5]

theorem clampSent_spec (v : JVal) :
    ∃ k : Int, clampSent v = .jint k ∧ 0 ≤ k ∧ k ≤ 100 ∧
      (pyFloat v = none → k = 0) := by
  unfold clampSent
  cases hf : pyFloat v with
  | none => exact ⟨0, rfl, le_refl 0, by norm_num, fun _ => rfl⟩
  | some q =>
    exact ⟨max 0 (min 100 (rhe q)), rfl, clamp_low 0 100 _,
      clamp_high _ (by norm_num), fun hc => by cases hc⟩

theorem clampSent_fix {k : Int} (h0 : 0 ≤ k) (h100 : k ≤ 100) :
    clampSent (.jint k) = .jint k := by
  unfold clampSent
  show (match (some ((k : Int) : Rat) : Option Rat) with
    | some q => JVal.jint (max 0 (min 100 (rhe q)))
    | none => JVal.jint 0) = .jint k
  simp only
  rw [rhe_intCast, clamp_fix h0 h100]

theorem totalRepair_spec (v : JVal) :
    ∃ n : Int, totalRepair v = .jint n ∧ 0 ≤ n ∧ (pyInt v = none → n = 0) := by
  unfold totalRepair
  cases hf : pyInt v with
  | none => exact ⟨0, rfl, le_refl 0, fun _ => rfl⟩
  | some m => exact ⟨max 0 m, rfl, le_max_left 0 m, fun hc => by cases hc⟩

theorem totalRepair_fix {n : Int} (h0 : 0 ≤ n) :
    totalRepair (.jint n) = .jint n := by
  unfold totalRepair
  show (match (some n : Option Int) with
    | some m => JVal.jint (max 0 m)
    | none => JVal.jint 0) = .jint n
  simp only
  rw [max_eq_right h0]

/-! ## The None-guarded slot actions -/

/-- Fixed-point shape of a None-guarded repair slot. -/
def PNull (g : JVal → JVal) : Option JVal → Prop :=
  fun o => o = none ∨ o = some .jnull ∨ ∃ v, o = some v ∧ v ≠ .jnull ∧ g v = v

theorem nullSkip_skip {g : JVal → JVal} {v : JVal}
    (h : nullSkip g v = .ok none) : v = .jnull := by
  unfold nullSkip at h
  by_cases hv : v = JVal.jnull
  · exact hv
  · rw [if_neg hv] at h
    cases h

theorem nullSkip_write {g : JVal → JVal} {v v' : JVal}
    (h : nullSkip g v = .ok (some v')) : v' = g v ∧ v ≠ .jnull := by
  unfold nullSkip at h
  by_cases hv : v = JVal.jnull
  · rw [if_pos hv] at h
    cases h
  · rw [if_neg hv] at h
    cases h
    exact ⟨rfl, hv⟩

theorem nullSkip_fix {g : JVal → JVal} {v : JVal}
    (hp : PNull g (some v)) :
    nullSkip g v = .ok none ∨ nullSkip g v = .ok (some v) := by
  rcases hp with hp | hp | ⟨w, hw, hne, hfix⟩
  · cases hp
  · left
    cases hp
    unfold nullSkip
    rw [if_pos rfl]
  · right
    cases hw
    unfold nullSkip
    rw [if_neg hne]
    rw [hfix]

theorem nullSkip_establish {g : JVal → JVal} {v v' : JVal}
    (hidem : ∀ w, g (g w) = g w) (hne : ∀ w, g w ≠ .jnull)
    (h : nullSkip g v = .ok (some v')) : PNull g (some v') := by
  obtain ⟨rfl, _⟩ := nullSkip_write h
  exact Or.inr (Or.inr ⟨g v, rfl, hne v, hidem v⟩)

/-! ## The truncation slot action -/

/-- Fixed-point shape of a truncation slot. -/
def PTrunc (bound : Nat) : Option JVal → Prop :=
  fun o => o = none ∨ ∃ v n, o = some v ∧ pyLen v = .ok n ∧ ¬ bound < n

theorem truncSlot_skip {bound : Nat} {v : JVal}
    (h : truncSlot bound v = .ok none) : ∃ n, pyLen v = .ok n ∧ ¬ bound < n := by
  unfold truncSlot at h
  split at h
  · cases h
  · rename_i n hl
    split at h
    · split at h
      · cases h
      · cases h
    · rename_i hb
      exact ⟨n, hl, hb⟩

theorem pyLen_slice {v v' : JVal} {n : Nat} (bound : Nat)
    (hl : pyLen v = .ok n) (hs : pySlice v bound = .ok v') :
    pyLen v' = .ok (min bound n) := by
  cases v with
  | jarr xs =>
    cases hs
    cases hl
    simp [pyLen, List.length_take]
  | jstr s =>
    cases hs
    cases hl
    simp [pyLen, List.length_take, String.mk]
  | jobj kvs => cases hs
  | jnull => cases hl
  | jbool b => cases hl
  | jint m => cases hl
  | jfloat q => cases hl

theorem truncSlot_write {bound : Nat} {v v' : JVal}
    (h : truncSlot bound v = .ok (some v')) :
    ∃ n, pyLen v = .ok n ∧ bound < n ∧ pySlice v bound = .ok v' ∧
      pyLen v' = .ok (min bound n) := by
  unfold truncSlot at h
  split at h
  · cases h
  · rename_i n hl
    split at h
    · rename_i hb
      split at h
      · cases h
      · rename_i w hs
        cases h
        exact ⟨n, hl, hb, hs, pyLen_slice bound hl hs⟩
    · cases h

theorem truncSlot_fixOf {bound : Nat} {v : JVal}
    (hp : PTrunc bound (some v)) :
    truncSlot bound v = .ok none ∨ truncSlot bound v = .ok (some v) := by
  rcases hp with hp | ⟨w, n, hw, hl, hb⟩
  · cases hp
  · cases hw
    left
    unfold truncSlot
    simp only [hl, if_neg hb]

theorem truncSlot_establish {bound : Nat} {v v' : JVal}
    (h : truncSlot bound v = .ok (some v')) : PTrunc bound (some v') := by
  obtain ⟨n, _, _, _, hl'⟩ := truncSlot_write h
  exact Or.inr ⟨v', min bound n, rfl, hl', by omega⟩

/-! ## Generic bind reasoning -/

theorem ebind_inv {α β : Type} {x : Except PyErr α} {f : α → Except PyErr β}
    {b : β} (h : (x >>= f) = .ok b) : ∃ a, x = .ok a ∧ f a = .ok b := by
  cases x with
  | ok a => exact ⟨a, rfl, h⟩
  | error e => exact absurd h (by simp [bind, Except.bind])

theorem ebind_ok {α β : Type} {x : Except PyErr α} {f : α → Except PyErr β}
    {a : α} (hx : x = .ok a) : (x >>= f) = f a := by
  rw [hx]
  rfl

theorem pure_ok {α : Type} {a b : α} (h : (pure a : Except PyErr α) = .ok b) :
    a = b := by
  cases h
  rfl

/-! ## Evaluation facts for the Python primitives -/

theorem pyAdd_jint (a b : Int) : pyAdd (.jint a) (.jint b) = .ok (.jint (a + b)) := rfl

theorem pyAdd_null_left (v : JVal) : pyAdd .jnull v = .error .typeError := by
  cases v <;> rfl

theorem pyAdd_jint_null (a : Int) : pyAdd (.jint a) .jnull = .error .typeError := rfl

theorem pyGetDefault_inv {v : JVal} {k : String} {d w : JVal}
    (h : pyGetDefault v k d = .ok w) :
    ∃ kvs, v = .jobj kvs ∧ w = (objGet kvs k).getD d := by
  cases v with
  | jobj kvs =>
    refine ⟨kvs, rfl, ?_⟩
    cases h
    rfl
  | jnull => cases h
  | jbool b => cases h
  | jint n => cases h
  | jfloat q => cases h
  | jstr s => cases h
  | jarr xs => cases h

theorem pyGetDefault_obj (kvs : List (String × JVal)) (k : String) (d : JVal) :
    pyGetDefault (.jobj kvs) k d = .ok ((objGet kvs k).getD d) := rfl

/-- A successful guarded step on a non-dict had a false guard. -/
theorem guardedStep_guard_false {key : String} {f : JVal → Except PyErr (Option JVal)}
    {d e : JVal} (hno : ∀ kvs, d ≠ .jobj kvs) (h : guardedStep key f d = .ok e) :
    pyContains d key = .ok false := by
  cases d with
  | jobj kvs => exact absurd rfl (hno kvs)
  | jarr xs =>
    rw [guardedStep_jarr] at h
    by_cases hb : xs.any (fun x => x == JVal.jstr key)
    · rw [if_pos hb] at h; cases h
    · simp only [pyContains, Except.ok.injEq]
      rw [← Bool.not_eq_true]
      exact hb
  | jstr s =>
    rw [guardedStep_jstr] at h
    by_cases hb : subChars key.toList s.toList
    · rw [if_pos hb] at h; cases h
    · simp only [pyContains, Except.ok.injEq]
      rw [← Bool.not_eq_true]
      exact hb
  | jnull => rw [guardedStep_jnull] at h; cases h
  | jbool b => rw [guardedStep_jbool] at h; cases h
  | jint n => rw [guardedStep_jint] at h; cases h
  | jfloat q => rw [guardedStep_jfloat] at h; cases h

/-- A guarded step with a false membership guard does nothing. -/
theorem guardedStep_of_guard_false {key : String}
    {f : JVal → Except PyErr (Option JVal)} {d : JVal}
    (hc : pyContains d key = .ok false) : guardedStep key f d = .ok d := by
  cases d with
  | jobj kvs =>
    rw [pyContains_obj] at hc
    have hg : objGet kvs key = none := by
      cases hg : objGet kvs key with
      | none => rfl
      | some v => rw [hg] at hc; cases hc
    exact guardedStep_obj_none key f kvs hg
  | jarr xs =>
    rw [guardedStep_jarr]
    have hb : (xs.any fun x => x == JVal.jstr key) = false := by
      simpa [pyContains] using hc
    rw [hb]
    rfl
  | jstr s =>
    rw [guardedStep_jstr]
    have hb : subChars key.toList s.toList = false := by
      simpa [pyContains] using hc
    rw [hb]
    rfl
  | jnull => simp [pyContains] at hc
  | jbool b => simp [pyContains] at hc
  | jint n => simp [pyContains] at hc
  | jfloat q => simp [pyContains] at hc

/-- A guarded step never turns a non-dict into a dict. -/
theorem guardedStep_obj_out {key : String} {f : JVal → Except PyErr (Option JVal)}
    {d : JVal} {kvs' : List (String × JVal)}
    (h : guardedStep key f d = .ok (.jobj kvs')) :
    ∃ kvs, d = .jobj kvs := by
  cases d with
  | jobj kvs => exact ⟨kvs, rfl⟩
  | jarr xs =>
    obtain ⟨he, _⟩ := guardedStep_nonobj _ _ _ _ (by intro k hk; cases hk) h
    cases he
  | jstr s =>
    obtain ⟨he, _⟩ := guardedStep_nonobj _ _ _ _ (by intro k hk; cases hk) h
    cases he
  | jnull =>
    obtain ⟨he, _⟩ := guardedStep_nonobj _ _ _ _ (by intro k hk; cases hk) h
    cases he
  | jbool b =>
    obtain ⟨he, _⟩ := guardedStep_nonobj _ _ _ _ (by intro k hk; cases hk) h
    cases he
  | jint n =>
    obtain ⟨he, _⟩ := guardedStep_nonobj _ _ _ _ (by intro k hk; cases hk) h
    cases he
  | jfloat q =>
    obtain ⟨he, _⟩ := guardedStep_nonobj _ _ _ _ (by intro k hk; cases hk) h
    cases he

/-! ## The enum step -/

/-- Fixed-point shape of one enum slot: absent, or a value in the allowed
list. -/
def EnumSlotP (allowed : List JVal) : Option JVal → Prop :=
  fun s => s = none ∨ ∃ v, s = some v ∧ v ∈ allowed

/-- Fixed-point shape of the header value for the enum step. -/
def EnumHeadVal (hv : JVal) : Prop :=
  (∃ hk, hv = .jobj hk ∧ EnumSlotP allowedStatus (objGet hk "status") ∧
    EnumSlotP allowedStatusColor (objGet hk "status_color")) ∨
  ((∀ hk, hv ≠ .jobj hk) ∧ pyContains hv "status" = .ok false ∧
    pyContains hv "status_color" = .ok false)

theorem enumf_skip {v : JVal} {allowed : List JVal} {dflt : JVal}
    (h : (if v ∈ allowed then (.ok none : Except PyErr (Option JVal))
      else .ok (some dflt)) = .ok none) : v ∈ allowed := by
  by_cases hv : v ∈ allowed
  · exact hv
  · rw [if_neg hv] at h
    cases h

theorem enumf_write {v v' : JVal} {allowed : List JVal} {dflt : JVal}
    (h : (if v ∈ allowed then (.ok none : Except PyErr (Option JVal))
      else .ok (some dflt)) = .ok (some v')) : v' = dflt := by
  by_cases hv : v ∈ allowed
  · rw [if_pos hv] at h
    cases h
  · rw [if_neg hv] at h
    cases h
    rfl

/-- What one successful enum check establishes. -/
theorem enumFix_est {hv e : JVal} {key : String} {allowed : List JVal}
    {dflt : JVal} (hd : dflt ∈ allowed) (h : enumFix hv key allowed dflt = .ok e) :
    (∃ hk hk', hv = .jobj hk ∧ e = .jobj hk' ∧
      EnumSlotP allowed (objGet hk' key) ∧
      (∀ k, k ≠ key → objGet hk' k = objGet hk k) ∧
      hk'.map Prod.fst = hk.map Prod.fst) ∨
    (e = hv ∧ (∀ hk, hv ≠ .jobj hk) ∧ pyContains hv key = .ok false) := by
  cases hv with
  | jobj hk =>
    obtain ⟨hk', he, hp, hfr, hkeys, _⟩ := guardedStep_est (EnumSlotP allowed)
      (Or.inl rfl)
      (fun v _ hf => Or.inr ⟨v, rfl, enumf_skip hf⟩)
      (fun v v' _ hf => Or.inr ⟨v', rfl, by rw [enumf_write hf]; exact hd⟩) h
    exact Or.inl ⟨hk, hk', rfl, he, hp, hfr, hkeys⟩
  | jarr xs =>
    obtain ⟨he, _⟩ := guardedStep_nonobj _ _ _ _ (by intro k hk; cases hk) h
    exact Or.inr ⟨he, (by intro k hk; cases hk),
      guardedStep_guard_false (by intro k hk; cases hk) h⟩
  | jstr s =>
    obtain ⟨he, _⟩ := guardedStep_nonobj _ _ _ _ (by intro k hk; cases hk) h
    exact Or.inr ⟨he, (by intro k hk; cases hk),
      guardedStep_guard_false (by intro k hk; cases hk) h⟩
  | jnull =>
    obtain ⟨he, _⟩ := guardedStep_nonobj _ _ _ _ (by intro k hk; cases hk) h
    exact Or.inr ⟨he, (by intro k hk; cases hk),
      guardedStep_guard_false (by intro k hk; cases hk) h⟩
  | jbool b =>
    obtain ⟨he, _⟩ := guardedStep_nonobj _ _ _ _ (by intro k hk; cases hk) h
    exact Or.inr ⟨he, (by intro k hk; cases hk),
      guardedStep_guard_false (by intro k hk; cases hk) h⟩
  | jint n =>
    obtain ⟨he, _⟩ := guardedStep_nonobj _ _ _ _ (by intro k hk; cases hk) h
    exact Or.inr ⟨he, (by intro k hk; cases hk),
      guardedStep_guard_false (by intro k hk; cases hk) h⟩
  | jfloat q =>
    obtain ⟨he, _⟩ := guardedStep_nonobj _ _ _ _ (by intro k hk; cases hk) h
    exact Or.inr ⟨he, (by intro k hk; cases hk),
      guardedStep_guard_false (by intro k hk; cases hk) h⟩

/-- An enum check is the identity when its slot is in shape, or the value
is not a dict with a false guard. -/
theorem enumFix_fix {hv : JVal} {key : String} {allowed : List JVal} {dflt : JVal}
    (hp : (∃ hk, hv = .jobj hk ∧ EnumSlotP allowed (objGet hk key)) ∨
      ((∀ hk, hv ≠ .jobj hk) ∧ pyContains hv key = .ok false)) :
    enumFix hv key allowed dflt = .ok hv := by
  rcases hp with ⟨hk, rfl, hp⟩ | ⟨_, hc⟩
  · exact guardedStep_suf (EnumSlotP allowed)
      (fun v hv => by
        rcases hv with hv | ⟨w, hw, hmem⟩
        · cases hv
        · cases hw
          exact Or.inl (by rw [if_pos hmem])) hp
  · exact guardedStep_of_guard_false hc

/-- Inversion of the combined enum slot action: the result satisfies the
header fixed-point shape and relates to the input by a frame on the two
status keys. -/
theorem enumSlotAct_write_inv {hv h' : JVal}
    (h : enumSlotAct hv = .ok (some h')) :
    EnumHeadVal h' ∧
      (h' = hv ∨ ∃ hk hk', hv = .jobj hk ∧ h' = .jobj hk' ∧
        (∀ s, s ∉ ["status", "status_color"] → objGet hk' s = objGet hk s) ∧
        hk'.map Prod.fst = hk.map Prod.fst) := by
  obtain ⟨h1, hfix1, h⟩ := ebind_inv h
  obtain ⟨h2, hfix2, h⟩ := ebind_inv h
  have hh : h2 = h' := by cases h; rfl
  subst hh
  rcases enumFix_est (by simp [allowedStatus]) hfix1 with
    ⟨hk, hk1, rfl, rfl, hp1, hfr1, hkeys1⟩ | ⟨rfl, hno1, hc1⟩
  · rcases enumFix_est (by simp [allowedStatusColor]) hfix2 with
      ⟨hk1b, hk2, heq, rfl, hp2, hfr2, hkeys2⟩ | ⟨rfl, hno2, hc2⟩
    · cases heq
      constructor
      · refine Or.inl ⟨hk2, rfl, ?_, hp2⟩
        rw [hfr2 "status" (by decide)]
        exact hp1
      · refine Or.inr ⟨hk, hk2, rfl, rfl, ?_, hkeys2.trans hkeys1⟩
        intro s hs
        have hs1 : s ≠ "status" := by
          intro hc; exact hs (by rw [hc]; simp)
        have hs2 : s ≠ "status_color" := by
          intro hc; exact hs (by rw [hc]; simp)
        rw [hfr2 s hs2, hfr1 s hs1]
    · exact absurd rfl (hno2 hk1)
  · rcases enumFix_est (by simp [allowedStatusColor]) hfix2 with
      ⟨hk1b, hk2, heq, rfl, hp2, hfr2, hkeys2⟩ | ⟨rfl, hno2, hc2⟩
    · exact absurd heq (hno1 hk1b)
    · exact ⟨Or.inr ⟨hno1, hc1, hc2⟩, Or.inl rfl⟩

/-- The enum slot action never reports "no write". -/
theorem enumSlotAct_no_none {hv : JVal} (h : enumSlotAct hv = .ok none) :
    False := by
  obtain ⟨h1, _, h⟩ := ebind_inv h
  obtain ⟨h2, _, h⟩ := ebind_inv h
  cases h

/-- The enum slot action is the identity on a value already in shape. -/
theorem enumSlotAct_fix {hv : JVal} (hp : EnumHeadVal hv) :
    enumSlotAct hv = .ok (some hv) := by
  unfold enumSlotAct
  rcases hp with ⟨hk, rfl, hp1, hp2⟩ | ⟨hno, hc1, hc2⟩
  · rw [ebind_ok (enumFix_fix (Or.inl ⟨hk, rfl, hp1⟩))]
    rw [ebind_ok (enumFix_fix (Or.inl ⟨hk, rfl, hp2⟩))]
    rfl
  · rw [ebind_ok (enumFix_fix (Or.inr ⟨hno, hc1⟩))]
    rw [ebind_ok (enumFix_fix (Or.inr ⟨hno, hc2⟩))]
    rfl

/-! ## The sentiment step -/

/-- Numeric value of a sentiment slot as used by the total (absent or
non-int counts 0; only meaningful on clamped slots). -/
def ival : Option JVal → Int
  | some (.jint k) => k
  | _ => 0

/-- Shape of a sentiment component slot after the clamp loop: absent,
None (skipped), or a clamped int. -/
def PClampSlot : Option JVal → Prop := fun s =>
  s = none ∨ s = some .jnull ∨ ∃ k : Int, s = some (.jint k) ∧ 0 ≤ k ∧ k ≤ 100

/-- Shape of a sentiment component slot on the success path (a present
None makes the total raise): absent or a clamped int. -/
def PIntSlot : Option JVal → Prop := fun s =>
  s = none ∨ ∃ k : Int, s = some (.jint k) ∧ 0 ≤ k ∧ k ≤ 100

/-- Fixed-point shape of the sentiment dict: clamped components whose
total is 0 or 100. -/
def TripleFixed (sk : List (String × JVal)) : Prop :=
  PIntSlot (objGet sk "negative") ∧ PIntSlot (objGet sk "neutral") ∧
  PIntSlot (objGet sk "positive") ∧
  (ival (objGet sk "negative") + ival (objGet sk "neutral") +
      ival (objGet sk "positive") = 0 ∨
   ival (objGet sk "negative") + ival (objGet sk "neutral") +
      ival (objGet sk "positive") = 100)

/-- Fixed-point shape of the sentiment payload slot. -/
def SentOK : Option JVal → Prop := fun o =>
  o = none ∨ ∃ sk, o = some (.jobj sk) ∧ TripleFixed sk

theorem clampKey_obj_est {sk : List (String × JVal)} {key : String} {e : JVal}
    (h : clampKey (.jobj sk) key = .ok e) :
    ∃ sk', e = .jobj sk' ∧ PClampSlot (objGet sk' key) ∧
      (∀ k, k ≠ key → objGet sk' k = objGet sk k) ∧
      sk'.map Prod.fst = sk.map Prod.fst := by
  obtain ⟨sk', he, hp, hfr, hkeys, _⟩ := guardedStep_est PClampSlot
    (Or.inl rfl)
    (fun v _ hf => Or.inr (Or.inl (by rw [nullSkip_skip hf])))
    (fun v v' _ hf => by
      obtain ⟨rfl, _⟩ := nullSkip_write hf
      obtain ⟨k, hck, h0, h100, _⟩ := clampSent_spec v
      exact Or.inr (Or.inr ⟨k, by rw [hck], h0, h100⟩)) h
  exact ⟨sk', he, hp, hfr, hkeys⟩

theorem clampKey_fix {sk : List (String × JVal)} {key : String}
    (hp : PIntSlot (objGet sk key)) :
    clampKey (.jobj sk) key = .ok (.jobj sk) :=
  guardedStep_suf PIntSlot
    (fun v hv => by
      rcases hv with hv | ⟨k, hw, h0, h100⟩
      · cases hv
      · cases hw
        right
        show fClamp (.jint k) = .ok (some (.jint k))
        unfold fClamp nullSkip
        rw [if_neg (by intro hc; cases hc), clampSent_fix h0 h100]) hp

theorem slot_getD_cases {s : Option JVal} (hs : PClampSlot s) :
    s = some .jnull ∨
      (s.getD (JVal.jint 0) = .jint (ival s) ∧ 0 ≤ ival s ∧ ival s ≤ 100) := by
  rcases hs with rfl | rfl | ⟨k, rfl, h0, h100⟩
  · right
    exact ⟨rfl, le_refl 0, by norm_num [ival]⟩
  · left
    rfl
  · right
    exact ⟨rfl, h0, h100⟩

theorem pint_getD {s : Option JVal} (hs : PIntSlot s) :
    s.getD (JVal.jint 0) = .jint (ival s) ∧ 0 ≤ ival s ∧ ival s ≤ 100 := by
  rcases hs with rfl | ⟨k, rfl, h0, h100⟩
  · exact ⟨rfl, le_refl 0, by norm_num [ival]⟩
  · exact ⟨rfl, h0, h100⟩

theorem pySetItem_obj (kvs : List (String × JVal)) (k : String) (v : JVal) :
    pySetItem (.jobj kvs) k v = .ok (.jobj (objSet kvs k v)) := rfl

theorem pyIndex_obj {kvs : List (String × JVal)} {k : String} {v : JVal}
    (hg : objGet kvs k = some v) : pyIndex (.jobj kvs) k = .ok v := by
  simp [pyIndex, hg]

theorem pyDiv_100_int {s : Int} (hs : (s : Rat) ≠ 0) :
    pyDiv (.jint 100) (.jint s) = .ok (.jfloat ((100 : Rat) / (s : Rat))) := by
  unfold pyDiv
  simp only [numVal]
  rw [if_neg hs]
  norm_num

theorem pyMul_int_float (a : Int) (q : Rat) :
    pyMul (.jint a) (.jfloat q) = .ok (.jfloat ((a : Rat) * q)) := rfl

theorem pyRoundInt_float (q : Rat) : pyRoundInt (.jfloat q) = .ok (rhe q) := rfl

theorem pySub_jint (a b : Int) : pySub (.jint a) (.jint b) = .ok (.jint (a - b)) := rfl

/-- Full evaluation of the renormalization body on a clamped sentiment
dict with integer total. -/
theorem sentRenorm_eval {sk : List (String × JVal)} {s a b : Int}
    (hs0 : (s : Rat) ≠ 0)
    (ha : (objGet sk "negative").getD (.jint 0) = .jint a)
    (hb : (objGet sk "neutral").getD (.jint 0) = .jint b) :
    sentRenorm (.jobj sk) (.jint s) =
      .ok (.jobj (objSet (objSet (objSet sk
        "negative" (.jint (rhe ((a : Rat) * ((100 : Rat) / (s : Rat))))))
        "neutral" (.jint (rhe ((b : Rat) * ((100 : Rat) / (s : Rat))))))
        "positive" (.jint (100 - rhe ((a : Rat) * ((100 : Rat) / (s : Rat)))
          - rhe ((b : Rat) * ((100 : Rat) / (s : Rat))))))) := by
  have hbn : objGet (objSet sk "negative"
      (.jint (rhe ((a : Rat) * ((100 : Rat) / (s : Rat)))))) "neutral" =
      objGet sk "neutral" :=
    objGet_objSet_ne sk "negative" "neutral" _ (by decide)
  unfold sentRenorm
  rw [ebind_ok (pyDiv_100_int hs0)]
  simp only [ebind_ok (pyGetDefault_obj _ _ _), ha,
    ebind_ok (pyMul_int_float _ _), ebind_ok (pyRoundInt_float _),
    ebind_ok (pySetItem_obj _ _ _)]
  simp only [ebind_ok (pyGetDefault_obj _ _ _), hbn, hb,
    ebind_ok (pyMul_int_float _ _), ebind_ok (pyRoundInt_float _),
    ebind_ok (pySetItem_obj _ _ _)]
  have hna : objGet (objSet (objSet sk
      "negative" (.jint (rhe ((a : Rat) * ((100 : Rat) / (s : Rat))))))
      "neutral" (.jint (rhe ((b : Rat) * ((100 : Rat) / (s : Rat))))))
      "negative" = some (.jint (rhe ((a : Rat) * ((100 : Rat) / (s : Rat))))) := by
    rw [objGet_objSet_ne _ "neutral" "negative" _ (by decide), objGet_objSet_self]
  have hnb : objGet (objSet (objSet sk
      "negative" (.jint (rhe ((a : Rat) * ((100 : Rat) / (s : Rat))))))
      "neutral" (.jint (rhe ((b : Rat) * ((100 : Rat) / (s : Rat))))))
      "neutral" = some (.jint (rhe ((b : Rat) * ((100 : Rat) / (s : Rat))))) :=
    objGet_objSet_self _ _ _
  simp only [ebind_ok (pyIndex_obj hna)]
  simp only [ebind_ok (pyIndex_obj hnb)]
  simp only [ebind_ok (pySub_jint _ _)]
  simp only [pySetItem_obj]

theorem objGet_isSome_mem (kvs : List (String × JVal)) (k : String) :
    (objGet kvs k).isSome = true ↔ k ∈ kvs.map Prod.fst := by
  induction kvs with
  | nil => simp [objGet]
  | cons p rest ih =>
    obtain ⟨k0, v0⟩ := p
    by_cases h0 : k0 = k
    · subst h0
      simp [objGet]
    · simp [objGet, h0, ih, Ne.symm h0]

theorem keys_eq_isSome {kvs kvs' : List (String × JVal)}
    (h : kvs'.map Prod.fst = kvs.map Prod.fst) (k : String) :
    (objGet kvs' k).isSome = (objGet kvs k).isSome := by
  rw [Bool.eq_iff_iff, objGet_isSome_mem, objGet_isSome_mem, h]

theorem pclamp_to_pint {s : Option JVal} (hs : PClampSlot s)
    (hg : s.getD (JVal.jint 0) = .jint (ival s)) : PIntSlot s := by
  rcases hs with rfl | rfl | ⟨k, rfl, h1, h2⟩
  · left
    rfl
  · rw [Option.getD_some] at hg
    cases hg
  · right
    exact ⟨k, rfl, h1, h2⟩

/-- The renormalized sentiment dict satisfies the fixed-point shape: all
three components in range and summing to exactly 100. -/
theorem renorm_triple_fixed (sk : List (String × JVal)) (a b s : Int)
    (ha0 : 0 ≤ a) (hb0 : 0 ≤ b) (ha : a ≤ s) (hb : b ≤ s) (hab : a + b ≤ s)
    (hs : 0 < s) :
    TripleFixed (objSet (objSet (objSet sk
      "negative" (.jint (rhe ((a : Rat) * ((100 : Rat) / (s : Rat))))))
      "neutral" (.jint (rhe ((b : Rat) * ((100 : Rat) / (s : Rat))))))
      "positive" (.jint (100 - rhe ((a : Rat) * ((100 : Rat) / (s : Rat)))
        - rhe ((b : Rat) * ((100 : Rat) / (s : Rat)))))) := by
  have hgneg : objGet (objSet (objSet (objSet sk
      "negative" (.jint (rhe ((a : Rat) * ((100 : Rat) / (s : Rat))))))
      "neutral" (.jint (rhe ((b : Rat) * ((100 : Rat) / (s : Rat))))))
      "positive" (.jint (100 - rhe ((a : Rat) * ((100 : Rat) / (s : Rat)))
        - rhe ((b : Rat) * ((100 : Rat) / (s : Rat)))))) "negative" =
      some (.jint (rhe ((a : Rat) * ((100 : Rat) / (s : Rat))))) := by
    rw [objGet_objSet_ne _ "positive" _ _ (by decide),
      objGet_objSet_ne _ "neutral" _ _ (by decide), objGet_objSet_self]
  have hgneu : objGet (objSet (objSet (objSet sk
      "negative" (.jint (rhe ((a : Rat) * ((100 : Rat) / (s : Rat))))))
      "neutral" (.jint (rhe ((b : Rat) * ((100 : Rat) / (s : Rat))))))
      "positive" (.jint (100 - rhe ((a : Rat) * ((100 : Rat) / (s : Rat)))
        - rhe ((b : Rat) * ((100 : Rat) / (s : Rat)))))) "neutral" =
      some (.jint (rhe ((b : Rat) * ((100 : Rat) / (s : Rat))))) := by
    rw [objGet_objSet_ne _ "positive" _ _ (by decide), objGet_objSet_self]
  have hgpos : objGet (objSet (objSet (objSet sk
      "negative" (.jint (rhe ((a : Rat) * ((100 : Rat) / (s : Rat))))))
      "neutral" (.jint (rhe ((b : Rat) * ((100 : Rat) / (s : Rat))))))
      "positive" (.jint (100 - rhe ((a : Rat) * ((100 : Rat) / (s : Rat)))
        - rhe ((b : Rat) * ((100 : Rat) / (s : Rat)))))) "positive" =
      some (.jint (100 - rhe ((a : Rat) * ((100 : Rat) / (s : Rat)))
        - rhe ((b : Rat) * ((100 : Rat) / (s : Rat))))) := objGet_objSet_self _ _ _
  have hn0 : 0 ≤ rhe ((a : Rat) * ((100 : Rat) / (s : Rat))) := renorm_nonneg ha0 hs
  have hn100 : rhe ((a : Rat) * ((100 : Rat) / (s : Rat))) ≤ 100 := renorm_le_100 ha hs
  have hm0 : 0 ≤ rhe ((b : Rat) * ((100 : Rat) / (s : Rat))) := renorm_nonneg hb0 hs
  have hm100 : rhe ((b : Rat) * ((100 : Rat) / (s : Rat))) ≤ 100 := renorm_le_100 hb hs
  have hsum : rhe ((a : Rat) * ((100 : Rat) / (s : Rat))) +
      rhe ((b : Rat) * ((100 : Rat) / (s : Rat))) ≤ 100 :=
    renorm_sum_le_100 ha0 hb0 hab hs
  refine ⟨?_, ?_, ?_, ?_⟩
  · rw [hgneg]
    exact Or.inr ⟨_, rfl, hn0, hn100⟩
  · rw [hgneu]
    exact Or.inr ⟨_, rfl, hm0, hm100⟩
  · rw [hgpos]
    exact Or.inr ⟨_, rfl, by omega, by omega⟩
  · rw [hgneg, hgneu, hgpos]
    simp only [ival]
    omega

/-- The renormalized sentiment dict touches only the three component
keys, and can only add those keys. -/
theorem renorm_obj_frame (sk : List (String × JVal)) (x y z : JVal) :
    (∀ t, t ≠ "negative" → t ≠ "neutral" → t ≠ "positive" →
      objGet (objSet (objSet (objSet sk "negative" x) "neutral" y) "positive" z) t =
        objGet sk t) ∧
    (∀ t, (objGet (objSet (objSet (objSet sk "negative" x) "neutral" y)
        "positive" z) t).isSome = true →
      (objGet sk t).isSome = true ∨ t = "negative" ∨ t = "neutral" ∨ t = "positive") := by
  constructor
  · intro t h1 h2 h3
    rw [objGet_objSet_ne _ _ _ _ h3, objGet_objSet_ne _ _ _ _ h2,
      objGet_objSet_ne _ _ _ _ h1]
  · intro t hsome
    by_cases h1 : t = "negative"
    · exact Or.inr (Or.inl h1)
    · by_cases h2 : t = "neutral"
      · exact Or.inr (Or.inr (Or.inl h2))
      · by_cases h3 : t = "positive"
        · exact Or.inr (Or.inr (Or.inr h3))
        · left
          rw [objGet_objSet_ne _ _ _ _ h3, objGet_objSet_ne _ _ _ _ h2,
            objGet_objSet_ne _ _ _ _ h1] at hsome
          exact hsome

/-- Inversion of a successful sentiment slot action: the input was a
dict, the result is a dict in the fixed-point shape, unchanged outside
the three component keys, and only those keys can have been added. -/
theorem sentSlotAct_write_inv {sent sent' : JVal}
    (h : sentSlotAct sent = .ok (some sent')) :
    ∃ sk sk', sent = .jobj sk ∧ sent' = .jobj sk' ∧ TripleFixed sk' ∧
      (∀ t, t ≠ "negative" → t ≠ "neutral" → t ≠ "positive" →
        objGet sk' t = objGet sk t) ∧
      (∀ t, (objGet sk' t).isSome = true →
        (objGet sk t).isSome = true ∨ t = "negative" ∨ t = "neutral" ∨
          t = "positive") := by
  unfold sentSlotAct at h
  obtain ⟨s1, h1, h⟩ := ebind_inv h
  obtain ⟨s2, h2, h⟩ := ebind_inv h
  obtain ⟨s3, h3, h⟩ := ebind_inv h
  obtain ⟨va, hva, h⟩ := ebind_inv h
  obtain ⟨vb, hvb, h⟩ := ebind_inv h
  obtain ⟨vc, hvc, h⟩ := ebind_inv h
  obtain ⟨ab, hab, h⟩ := ebind_inv h
  obtain ⟨tot, htot, h⟩ := ebind_inv h
  obtain ⟨sk3, rfl, hva'⟩ := pyGetDefault_inv hva
  obtain ⟨sk2, rfl⟩ := guardedStep_obj_out h3
  obtain ⟨sk1, rfl⟩ := guardedStep_obj_out h2
  obtain ⟨sk0, rfl⟩ := guardedStep_obj_out h1
  obtain ⟨sk1', he1, hp1, hfr1, hkeys1⟩ := clampKey_obj_est h1
  cases he1
  obtain ⟨sk2', he2, hp2, hfr2, hkeys2⟩ := clampKey_obj_est h2
  cases he2
  obtain ⟨sk3', he3, hp3, hfr3, hkeys3⟩ := clampKey_obj_est h3
  cases he3
  have hneg : PClampSlot (objGet sk3 "negative") := by
    rw [hfr3 _ (by decide), hfr2 _ (by decide)]
    exact hp1
  have hneu : PClampSlot (objGet sk3 "neutral") := by
    rw [hfr3 _ (by decide)]
    exact hp2
  have hpos : PClampSlot (objGet sk3 "positive") := hp3
  obtain ⟨kvsb, heqb, hvb'⟩ := pyGetDefault_inv hvb
  cases heqb
  obtain ⟨kvsc, heqc, hvc'⟩ := pyGetDefault_inv hvc
  cases heqc
  have hfr30 : ∀ t, t ≠ "negative" → t ≠ "neutral" → t ≠ "positive" →
      objGet sk3 t = objGet sk0 t := by
    intro t h1t h2t h3t
    rw [hfr3 t h3t, hfr2 t h2t, hfr1 t h1t]
  have hkeys30 : sk3.map Prod.fst = sk0.map Prod.fst :=
    hkeys3.trans (hkeys2.trans hkeys1)
  have hsome30 : ∀ t, (objGet sk3 t).isSome = true →
      (objGet sk0 t).isSome = true ∨ t = "negative" ∨ t = "neutral" ∨
        t = "positive" := by
    intro t hsome
    left
    rw [← keys_eq_isSome hkeys30 t]
    exact hsome
  rcases slot_getD_cases hneg with hnull | ⟨hga, ha0, ha100⟩
  · rw [hnull, Option.getD_some] at hva'
    rw [hva', pyAdd_null_left] at hab
    cases hab
  rcases slot_getD_cases hneu with hnull | ⟨hgb, hb0, hb100⟩
  · rw [hnull, Option.getD_some] at hvb'
    rw [hva', hga, hvb', pyAdd_jint_null] at hab
    cases hab
  rcases slot_getD_cases hpos with hnull | ⟨hgc, hc0, hc100⟩
  · rw [hnull, Option.getD_some] at hvc'
    rw [hva', hga, hvb', hgb, pyAdd_jint] at hab
    cases hab
    rw [hvc', pyAdd_jint_null] at htot
    cases htot
  rw [hva', hga, hvb', hgb, pyAdd_jint] at hab
  cases hab
  rw [hvc', hgc, pyAdd_jint] at htot
  cases htot
  have hPneg : PIntSlot (objGet sk3 "negative") := pclamp_to_pint hneg hga
  have hPneu : PIntSlot (objGet sk3 "neutral") := pclamp_to_pint hneu hgb
  have hPpos : PIntSlot (objGet sk3 "positive") := pclamp_to_pint hpos hgc
  by_cases hs100 : ival (objGet sk3 "negative") + ival (objGet sk3 "neutral") +
      ival (objGet sk3 "positive") = 100
  · have hne : pyNe100 (.jint (ival (objGet sk3 "negative") +
        ival (objGet sk3 "neutral") + ival (objGet sk3 "positive"))) = false := by
      simp [pyNe100, hs100]
    rw [hne, if_neg (by simp)] at h
    cases pure_ok h
    exact ⟨sk0, sk3, rfl, rfl, ⟨hPneg, hPneu, hPpos, Or.inr hs100⟩, hfr30, hsome30⟩
  · have hne : pyNe100 (.jint (ival (objGet sk3 "negative") +
        ival (objGet sk3 "neutral") + ival (objGet sk3 "positive"))) = true := by
      simp [pyNe100, hs100]
    rw [hne, if_pos rfl] at h
    obtain ⟨pos, hposv, h⟩ := ebind_inv h
    have hgt : pyGt0 (.jint (ival (objGet sk3 "negative") +
        ival (objGet sk3 "neutral") + ival (objGet sk3 "positive"))) =
        .ok (decide (0 < ival (objGet sk3 "negative") + ival (objGet sk3 "neutral") +
          ival (objGet sk3 "positive"))) := rfl
    rw [hgt] at hposv
    cases hposv
    by_cases hspos : 0 < ival (objGet sk3 "negative") + ival (objGet sk3 "neutral") +
        ival (objGet sk3 "positive")
    · rw [if_pos (decide_eq_true hspos)] at h
      obtain ⟨sren, hren, h⟩ := ebind_inv h
      cases pure_ok h
      have hs0 : ((ival (objGet sk3 "negative") + ival (objGet sk3 "neutral") +
          ival (objGet sk3 "positive") : Int) : Rat) ≠ 0 := by
        have : (0 : Rat) < ((ival (objGet sk3 "negative") + ival (objGet sk3 "neutral") +
            ival (objGet sk3 "positive") : Int) : Rat) := by exact_mod_cast hspos
        linarith
      rw [sentRenorm_eval hs0 hga hgb] at hren
      cases hren
      refine ⟨sk0, _, rfl, rfl, ?_, ?_, ?_⟩
      · exact renorm_triple_fixed sk3 _ _ _ ha0 hb0 (by omega) (by omega) (by omega)
          hspos
      · intro t h1t h2t h3t
        rw [(renorm_obj_frame sk3 _ _ _).1 t h1t h2t h3t]
        exact hfr30 t h1t h2t h3t
      · intro t hsome
        rcases (renorm_obj_frame sk3 _ _ _).2 t hsome with hsome3 | hkey
        · exact hsome30 t hsome3
        · exact Or.inr hkey
    · rw [if_neg (by simpa using hspos)] at h
      cases pure_ok h
      refine ⟨sk0, sk3, rfl, rfl, ⟨hPneg, hPneu, hPpos, Or.inl ?_⟩, hfr30, hsome30⟩
      have h1 := (pint_getD hPneg).2.1
      have h2 := (pint_getD hPneu).2.1
      have h3 := (pint_getD hPpos).2.1
      omega

/-- The sentiment slot action always reports a write when it succeeds. -/
theorem sentSlotAct_no_none {sent : JVal} (h : sentSlotAct sent = .ok none) :
    False := by
  unfold sentSlotAct at h
  obtain ⟨s1, h1, h⟩ := ebind_inv h
  obtain ⟨s2, h2, h⟩ := ebind_inv h
  obtain ⟨s3, h3, h⟩ := ebind_inv h
  obtain ⟨va, hva, h⟩ := ebind_inv h
  obtain ⟨vb, hvb, h⟩ := ebind_inv h
  obtain ⟨vc, hvc, h⟩ := ebind_inv h
  obtain ⟨ab, hab, h⟩ := ebind_inv h
  obtain ⟨tot, htot, h⟩ := ebind_inv h
  by_cases hne : pyNe100 tot = true
  · rw [if_pos hne] at h
    obtain ⟨pos, hposv, h⟩ := ebind_inv h
    by_cases hp : pos = true
    · rw [if_pos hp] at h
      obtain ⟨sren, hren, h⟩ := ebind_inv h
      cases pure_ok h
    · rw [if_neg hp] at h
      cases pure_ok h
  · rw [if_neg hne] at h
    cases pure_ok h

/-- The sentiment slot action is the identity on a dict already in the
fixed-point shape. -/
theorem sentSlotAct_fix {sk : List (String × JVal)} (hp : TripleFixed sk) :
    sentSlotAct (.jobj sk) = .ok (some (.jobj sk)) := by
  obtain ⟨hPneg, hPneu, hPpos, hsum⟩ := hp
  obtain ⟨hga, ha0, ha100⟩ := pint_getD hPneg
  obtain ⟨hgb, hb0, hb100⟩ := pint_getD hPneu
  obtain ⟨hgc, hc0, hc100⟩ := pint_getD hPpos
  unfold sentSlotAct
  rw [ebind_ok (clampKey_fix hPneg)]
  rw [ebind_ok (clampKey_fix hPneu)]
  rw [ebind_ok (clampKey_fix hPpos)]
  rw [ebind_ok (pyGetDefault_obj _ _ _)]
  simp only [hga]
  rw [ebind_ok (pyGetDefault_obj _ _ _)]
  simp only [hgb]
  rw [ebind_ok (pyGetDefault_obj _ _ _)]
  simp only [hgc]
  rw [ebind_ok (pyAdd_jint _ _)]
  rw [ebind_ok (pyAdd_jint _ _)]
  rcases hsum with hsum | hsum
  · have hne : pyNe100 (.jint (ival (objGet sk "negative") +
        ival (objGet sk "neutral") + ival (objGet sk "positive"))) = true := by
      simp [pyNe100, hsum]
    rw [hne, if_pos rfl]
    have hgt : pyGt0 (.jint (ival (objGet sk "negative") +
        ival (objGet sk "neutral") + ival (objGet sk "positive"))) =
        .ok false := by
      simp only [pyGt0, Except.ok.injEq]
      rw [hsum]
      decide
    rw [ebind_ok hgt]
    rw [if_neg (by simp)]
    rfl
  · have hne : pyNe100 (.jint (ival (objGet sk "negative") +
        ival (objGet sk "neutral") + ival (objGet sk "positive"))) = false := by
      simp [pyNe100, hsum]
    rw [hne, if_neg (by simp)]
    rfl

/-- TripleFixed only looks at the three component slots. -/
theorem TripleFixed_of_frame {sk sk' : List (String × JVal)}
    (hn : objGet sk' "negative" = objGet sk "negative")
    (hu : objGet sk' "neutral" = objGet sk "neutral")
    (hp : objGet sk' "positive" = objGet sk "positive")
    (h : TripleFixed sk) : TripleFixed sk' := by
  unfold TripleFixed at h ⊢
  rw [hn, hu, hp]
  exact h

/-- Establishment through the sentiment step: a successful run leaves the
sentiment slot in the fixed-point shape and touches no other key. -/
theorem sentimentStep_est {kvs : List (String × JVal)} {e : JVal}
    (h : sentimentStep (.jobj kvs) = .ok e) :
    ∃ kvs', e = .jobj kvs' ∧ SentOK (objGet kvs' "sentiment") ∧
      (∀ k, k ≠ "sentiment" → objGet kvs' k = objGet kvs k) ∧
      kvs'.map Prod.fst = kvs.map Prod.fst := by
  obtain ⟨kvs', he, hP, hfr, hkeys, _⟩ := guardedStep_est SentOK
    (Or.inl rfl)
    (fun v _ hf => (sentSlotAct_no_none hf).elim)
    (fun v v' _ hf => by
      obtain ⟨sk, sk', _, rfl, htf, _, _⟩ := sentSlotAct_write_inv hf
      exact Or.inr ⟨sk', rfl, htf⟩) h
  exact ⟨kvs', he, hP, hfr, hkeys⟩

/-- The sentiment step is the identity on a fixed-point slot. -/
theorem sentimentStep_suf {kvs : List (String × JVal)}
    (hp : SentOK (objGet kvs "sentiment")) :
    sentimentStep (.jobj kvs) = .ok (.jobj kvs) :=
  guardedStep_suf SentOK
    (fun v hv => by
      rcases hv with hv | ⟨sk, hw, htf⟩
      · cases hv
      · obtain rfl : v = .jobj sk := by injection hw
        exact Or.inr (sentSlotAct_fix htf)) hp

/-- SentOK survives a change of the sentiment dict that avoids the three
component keys. -/
theorem SentOK_frame {ws : List String} {o o' : Option JVal}
    (hneg : "negative" ∉ ws) (hneu : "neutral" ∉ ws) (hpos : "positive" ∉ ws)
    (hq : SentOK o) (hf : HFrameKeys ws o o') : SentOK o' := by
  rcases hf with rfl | ⟨hk, hk', ho, ho', hsub, _⟩
  · exact hq
  · rcases hq with hq | ⟨sk, hq, htf⟩
    · rw [hq] at ho
      cases ho
    · rw [hq] at ho
      obtain rfl : sk = hk := by
        injection ho with ho2
        injection ho2
      refine Or.inr ⟨hk', ho', ?_⟩
      exact TripleFixed_of_frame (hsub _ hneg) (hsub _ hneu) (hsub _ hpos) htf

/-! ## The enum step at the top level -/

/-- Fixed-point shape of the header slot for the enum step. -/
def EnumHead : Option JVal → Prop := fun o =>
  o = none ∨ ∃ v, o = some v ∧ EnumHeadVal v

/-- EnumHead survives a change of the header dict that avoids the two enum
keys. -/
theorem EnumHead_frame {ws : List String} {o o' : Option JVal}
    (hs : "status" ∉ ws) (hc : "status_color" ∉ ws)
    (hq : EnumHead o) (hf : HFrameKeys ws o o') : EnumHead o' := by
  rcases hf with rfl | ⟨hk, hk', ho, ho', hsub, _⟩
  · exact hq
  · rcases hq with hq | ⟨v, hq, hv⟩
    · rw [hq] at ho
      cases ho
    · rw [hq] at ho
      obtain rfl : v = .jobj hk := by injection ho
      rcases hv with ⟨hk0, hveq, hp1, hp2⟩ | ⟨hno, _, _⟩
      · obtain rfl : hk = hk0 := by injection hveq
        refine Or.inr ⟨.jobj hk', ho', Or.inl ⟨hk', rfl, ?_, ?_⟩⟩
        · rw [hsub _ hs]
          exact hp1
        · rw [hsub _ hc]
          exact hp2
      · exact absurd rfl (hno hk)

/-- Establishment through the enum step, with the frame of the header
slot (only the two enum keys can change inside it). -/
theorem enumStep_est {kvs : List (String × JVal)} {e : JVal}
    (h : enumStep (.jobj kvs) = .ok e) :
    ∃ kvs', e = .jobj kvs' ∧ EnumHead (objGet kvs' "header") ∧
      (∀ k, k ≠ "header" → objGet kvs' k = objGet kvs k) ∧
      kvs'.map Prod.fst = kvs.map Prod.fst ∧
      HFrameKeys ["status", "status_color"] (objGet kvs "header")
        (objGet kvs' "header") := by
  obtain ⟨kvs', he, hP, hfr, hkeys, hrel⟩ := guardedStep_est EnumHead
    (Or.inl rfl)
    (fun v _ hf => (enumSlotAct_no_none hf).elim)
    (fun v v' _ hf => Or.inr ⟨v', rfl, (enumSlotAct_write_inv hf).1⟩) h
  refine ⟨kvs', he, hP, hfr, hkeys, ?_⟩
  rcases hrel with hrel | ⟨v, v', hg, hg', hf⟩
  · exact Or.inl hrel
  · rcases (enumSlotAct_write_inv hf).2 with rfl | ⟨hk, hk', rfl, rfl, hsub, hkeq⟩
    · exact Or.inl (hg'.trans hg.symm)
    · exact Or.inr ⟨hk, hk', hg, hg', hsub, hkeq⟩

/-- The enum step is the identity on a fixed-point header slot. -/
theorem enumStep_suf {kvs : List (String × JVal)}
    (hp : EnumHead (objGet kvs "header")) :
    enumStep (.jobj kvs) = .ok (.jobj kvs) :=
  guardedStep_suf EnumHead
    (fun v hv => by
      rcases hv with hv | ⟨w, hw, hval⟩
      · cases hv
      · obtain rfl : v = w := by injection hw
        exact Or.inr (enumSlotAct_fix hval)) hp

/-! ## Slot-fixed-point form of a guarded step -/

/-- The slot is absent or its value is a fixed point of the slot action. -/
def SlotFix (f : JVal → Except PyErr (Option JVal)) : Option JVal → Prop :=
  fun o => o = none ∨ ∃ v, o = some v ∧ (f v = .ok none ∨ f v = .ok (some v))

/-- Establishment of SlotFix through a guarded step whose written values
are fixed points. -/
theorem guardedStep_est_slotFix {key : String}
    {f : JVal → Except PyErr (Option JVal)}
    {kvs : List (String × JVal)} {e : JVal}
    (hidem : ∀ v v', f v = .ok (some v') →
      f v' = .ok none ∨ f v' = .ok (some v'))
    (h : guardedStep key f (.jobj kvs) = .ok e) :
    ∃ kvs', e = .jobj kvs' ∧ SlotFix f (objGet kvs' key) ∧
      (∀ k, k ≠ key → objGet kvs' k = objGet kvs k) ∧
      kvs'.map Prod.fst = kvs.map Prod.fst := by
  obtain ⟨kvs', he, hP, hfr, hkeys, _⟩ := guardedStep_est (SlotFix f)
    (Or.inl rfl)
    (fun v _ hf => Or.inr ⟨v, rfl, Or.inl hf⟩)
    (fun v v' _ hf => Or.inr ⟨v', rfl, hidem v v' hf⟩) h
  exact ⟨kvs', he, hP, hfr, hkeys⟩

/-- A guarded step is the identity on a SlotFix slot. -/
theorem guardedStep_suf_slotFix {key : String}
    {f : JVal → Except PyErr (Option JVal)} {kvs : List (String × JVal)}
    (hp : SlotFix f (objGet kvs key)) :
    guardedStep key f (.jobj kvs) = .ok (.jobj kvs) :=
  guardedStep_suf (SlotFix f)
    (fun v hv => by
      rcases hv with hv | ⟨w, hw, hfw⟩
      · cases hv
      · obtain rfl : v = w := by injection hw
        exact hfw) hp

/-- Written values of the guarded clamp are fixed points of it. -/
theorem fClamp_idem {v v' : JVal} (h : fClamp v = .ok (some v')) :
    fClamp v' = .ok none ∨ fClamp v' = .ok (some v') :=
  nullSkip_fix (nullSkip_establish
    (fun w => by
      obtain ⟨k, hk, h0, h100, _⟩ := clampSent_spec w
      rw [hk, clampSent_fix h0 h100])
    (fun w => by
      obtain ⟨k, hk, _, _, _⟩ := clampSent_spec w
      rw [hk]
      intro hc
      cases hc)
    h)

/-- Written values of the pain repair are fixed points of it. -/
theorem fPain_idem {v v' : JVal} (h : fPain v = .ok (some v')) :
    fPain v' = .ok none ∨ fPain v' = .ok (some v') :=
  nullSkip_fix (nullSkip_establish painRepair_idem
    (fun w => by
      obtain ⟨r, hr, _, _, _, _⟩ := painRepair_spec w
      rw [hr]
      intro hc
      cases hc)
    h)

/-! ## The problem_distribution step -/

/-- A per-element repair success is a fixed point on rerun. -/
theorem problemDistElem_self {x x' : JVal} (h : problemDistElem x = .ok x') :
    problemDistElem x' = .ok x' :=
  guardedStep_self (fun _ _ hf => fClamp_idem hf) h

theorem mapM_ok_of_fix {α : Type} (f : α → Except PyErr α) :
    ∀ xs : List α, (∀ x ∈ xs, f x = .ok x) → xs.mapM f = .ok xs := by
  intro xs
  induction xs with
  | nil => intro _; rfl
  | cons x xs ih =>
    intro h
    rw [List.mapM_cons, h x (by simp)]
    rw [ih (fun y hy => h y (by simp [hy]))]
    rfl

theorem mapM_ok_inv {α : Type} (f : α → Except PyErr α) :
    ∀ (xs ys : List α), xs.mapM f = .ok ys →
      ∀ y ∈ ys, ∃ x, f x = .ok y := by
  intro xs
  induction xs with
  | nil =>
    intro ys h
    cases h
    intro y hy
    cases hy
  | cons x xs ih =>
    intro ys h
    rw [List.mapM_cons] at h
    cases hf : f x with
    | error e =>
      rw [hf] at h
      cases h
    | ok b =>
      rw [hf] at h
      cases hm : xs.mapM f with
      | error e =>
        rw [hm] at h
        simp [bind, Except.bind] at h
      | ok bs =>
        rw [hm] at h
        simp only [bind, Except.bind, pure, Except.pure, Except.ok.injEq] at h
        subst h
        intro y hy
        rw [List.mem_cons] at hy
        rcases hy with hy | hy
        · exact ⟨x, hy ▸ hf⟩
        · exact ih bs hm y hy

/-- A written problem_distribution value is a fixed point of the slot
action: only the list branch writes, and each written element is a fixed
point of the per-element repair. -/
theorem pdSlot_self {v v' : JVal} (h : pdSlot v = .ok (some v')) :
    pdSlot v' = .ok (some v') := by
  cases v with
  | jarr xs =>
    simp only [pdSlot] at h
    cases hm : xs.mapM problemDistElem with
    | error e =>
      rw [hm] at h
      cases h
    | ok ys =>
      rw [hm] at h
      obtain rfl : v' = .jarr ys := by
        simp only [Except.map, Except.ok.injEq, Option.some.injEq] at h
        exact h.symm
      have hys : ∀ y ∈ ys, problemDistElem y = .ok y := fun y hy => by
        obtain ⟨x, hx⟩ := mapM_ok_inv problemDistElem xs ys hm y hy
        exact problemDistElem_self hx
      simp only [pdSlot]
      rw [mapM_ok_of_fix problemDistElem ys hys]
      rfl
  | jstr s =>
    simp only [pdSlot] at h
    revert h
    cases s.toList.mapM (fun c => problemDistElem (.jstr (String.singleton c))) with
    | error e => intro h; cases h
    | ok cs => intro h; cases h
  | jobj kvs =>
    simp only [pdSlot] at h
    revert h
    cases kvs.mapM (fun p => problemDistElem (.jstr p.1)) with
    | error e => intro h; cases h
    | ok cs => intro h; cases h
  | jnull => cases h
  | jbool b => cases h
  | jint n => cases h
  | jfloat q => cases h

/-! ## The truncation steps at the top level -/

theorem truncStep_est {key : String} {bound : Nat}
    {kvs : List (String × JVal)} {e : JVal}
    (h : truncStep key bound (.jobj kvs) = .ok e) :
    ∃ kvs', e = .jobj kvs' ∧ PTrunc bound (objGet kvs' key) ∧
      (∀ k, k ≠ key → objGet kvs' k = objGet kvs k) ∧
      kvs'.map Prod.fst = kvs.map Prod.fst := by
  obtain ⟨kvs', he, hP, hfr, hkeys, _⟩ := guardedStep_est (PTrunc bound)
    (Or.inl rfl)
    (fun v _ hf => by
      obtain ⟨n, hl, hb⟩ := truncSlot_skip hf
      exact Or.inr ⟨v, n, rfl, hl, hb⟩)
    (fun v v' _ hf => truncSlot_establish hf) h
  exact ⟨kvs', he, hP, hfr, hkeys⟩

theorem truncStep_suf {key : String} {bound : Nat}
    {kvs : List (String × JVal)} (hp : PTrunc bound (objGet kvs key)) :
    truncStep key bound (.jobj kvs) = .ok (.jobj kvs) :=
  guardedStep_suf (PTrunc bound) (fun _ hv => truncSlot_fixOf hv) hp

/-- Written values of the star repair are fixed points of it. -/
theorem fStar_establish {v v' : JVal} (h : fStar v = .ok (some v')) :
    PNull starRepair (some v') :=
  nullSkip_establish starRepair_idem
    (fun w => by
      obtain ⟨r, hr, _, _, _, _⟩ := starRepair_spec w
      rw [hr]
      intro hc
      cases hc)
    h

/-- Written values of the total_reports repair are fixed points of it. -/
theorem fTotal_establish {v v' : JVal} (h : fTotal v = .ok (some v')) :
    PNull totalRepair (some v') :=
  nullSkip_establish
    (fun w => by
      obtain ⟨n, hn, h0, _⟩ := totalRepair_spec w
      rw [hn, totalRepair_fix h0])
    (fun w => by
      obtain ⟨n, hn, _, _⟩ := totalRepair_spec w
      rw [hn]
      intro hc
      cases hc)
    h

/-! ## The full repair pass -/

/-- The thirteen per-step fixed-point conditions established by one full
run of the repair pass on a top-level dict, stated at its output. -/
def GoodRepair (kvs : List (String × JVal)) : Prop :=
  SlotFix fPain (objGet kvs "pain_index") ∧
  NestOK "star_rating" (PNull starRepair) (objGet kvs "header") ∧
  SentOK (objGet kvs "sentiment") ∧
  SlotFix pdSlot (objGet kvs "problem_distribution") ∧
  PTrunc 5 (objGet kvs "key_metrics") ∧
  PTrunc 10 (objGet kvs "active_outages") ∧
  PTrunc 5 (objGet kvs "geographic_hotspots") ∧
  PTrunc 8 (objGet kvs "recent_activity") ∧
  PTrunc 4 (objGet kvs "critical_insights") ∧
  PTrunc 3 (objGet kvs "recommendations") ∧
  NestOK "samples" (PTrunc 4) (objGet kvs "sentiment") ∧
  EnumHead (objGet kvs "header") ∧
  NestOK "total_reports_24h" (PNull totalRepair) (objGet kvs "header")

/-- A successful full repair pass on a dict leaves its output in the
thirteen-fold fixed-point shape. -/
theorem repair_obj_est {kvs : List (String × JVal)} {e : JVal}
    (h : analyze_insights_repair (.jobj kvs) = .ok e) :
    ∃ kvs', e = .jobj kvs' ∧ GoodRepair kvs' := by
  unfold analyze_insights_repair at h
  obtain ⟨d1, h1, hr1⟩ := ebind_inv h
  obtain ⟨k1, rfl, hp1, fr1, keys1⟩ := guardedStep_est_slotFix (fun v v' hf => fPain_idem hf) h1
  obtain ⟨d2, h2, hr2⟩ := ebind_inv hr1
  obtain ⟨k2, rfl, hstar2, fr2, keys2, hfk2⟩ := nestedStep_est (PNull starRepair)
    (Or.inl rfl)
    (fun v hf => Or.inr (Or.inl (by rw [nullSkip_skip hf])))
    (fun v v' hf => fStar_establish hf) h2
  obtain ⟨d3, h3, hr3⟩ := ebind_inv hr2
  obtain ⟨k3, rfl, hsent3, fr3, keys3⟩ := sentimentStep_est h3
  obtain ⟨d4, h4, hr4⟩ := ebind_inv hr3
  obtain ⟨k4, rfl, hpd4, fr4, keys4⟩ := guardedStep_est_slotFix
    (fun v v' hf => Or.inr (pdSlot_self hf)) h4
  obtain ⟨d5, h5, hr5⟩ := ebind_inv hr4
  obtain ⟨k5, rfl, ht5, fr5, keys5⟩ := truncStep_est h5
  obtain ⟨d6, h6, hr6⟩ := ebind_inv hr5
  obtain ⟨k6, rfl, ht6, fr6, keys6⟩ := truncStep_est h6
  obtain ⟨d7, h7, hr7⟩ := ebind_inv hr6
  obtain ⟨k7, rfl, ht7, fr7, keys7⟩ := truncStep_est h7
  obtain ⟨d8, h8, hr8⟩ := ebind_inv hr7
  obtain ⟨k8, rfl, ht8, fr8, keys8⟩ := truncStep_est h8
  obtain ⟨d9, h9, hr9⟩ := ebind_inv hr8
  obtain ⟨k9, rfl, ht9, fr9, keys9⟩ := truncStep_est h9
  obtain ⟨d10, h10, hr10⟩ := ebind_inv hr9
  obtain ⟨k10, rfl, ht10, fr10, keys10⟩ := truncStep_est h10
  obtain ⟨d11, h11, hr11⟩ := ebind_inv hr10
  obtain ⟨k11, rfl, hsamp11, fr11, keys11, hfk11⟩ := nestedStep_est (PTrunc 4)
    (Or.inl rfl)
    (fun v hf => by
      obtain ⟨n, hl, hb⟩ := truncSlot_skip hf
      exact Or.inr ⟨v, n, rfl, hl, hb⟩)
    (fun v v' hf => truncSlot_establish hf) h11
  obtain ⟨d12, h12, hr12⟩ := ebind_inv hr11
  obtain ⟨k12, rfl, henum12, fr12, keys12, hfk12⟩ := enumStep_est h12
  obtain ⟨d13, h13, hr13⟩ := ebind_inv hr12
  obtain ⟨k13, rfl, htot13, fr13, keys13, hfk13⟩ := nestedStep_est
    (PNull totalRepair)
    (Or.inl rfl)
    (fun v hf => Or.inr (Or.inl (by rw [nullSkip_skip hf])))
    (fun v v' hf => fTotal_establish hf) h13
  cases pure_ok hr13
  refine ⟨k13, rfl, ?_, ?_, ?_, ?_, ?_, ?_, ?_, ?_, ?_, ?_, ?_, ?_, ?_⟩
  · rw [fr13 _ (by decide), fr12 _ (by decide), fr11 _ (by decide),
      fr10 _ (by decide), fr9 _ (by decide), fr8 _ (by decide),
      fr7 _ (by decide), fr6 _ (by decide), fr5 _ (by decide),
      fr4 _ (by decide), fr3 _ (by decide), fr2 _ (by decide)]
    exact hp1
  · have hstar11 : NestOK "star_rating" (PNull starRepair)
        (objGet k11 "header") := by
      rw [fr11 _ (by decide), fr10 _ (by decide), fr9 _ (by decide),
        fr8 _ (by decide), fr7 _ (by decide), fr6 _ (by decide),
        fr5 _ (by decide), fr4 _ (by decide), fr3 _ (by decide)]
      exact hstar2
    exact NestOK_frame (by decide) (NestOK_frame (by decide) hstar11 hfk12) hfk13
  · have hsent10 : SentOK (objGet k10 "sentiment") := by
      rw [fr10 _ (by decide), fr9 _ (by decide), fr8 _ (by decide),
        fr7 _ (by decide), fr6 _ (by decide), fr5 _ (by decide),
        fr4 _ (by decide)]
      exact hsent3
    have hsent11 := SentOK_frame (by decide) (by decide) (by decide)
      hsent10 hfk11
    rw [fr13 _ (by decide), fr12 _ (by decide)]
    exact hsent11
  · rw [fr13 _ (by decide), fr12 _ (by decide), fr11 _ (by decide),
      fr10 _ (by decide), fr9 _ (by decide), fr8 _ (by decide),
      fr7 _ (by decide), fr6 _ (by decide), fr5 _ (by decide)]
    exact hpd4
  · rw [fr13 _ (by decide), fr12 _ (by decide), fr11 _ (by decide),
      fr10 _ (by decide), fr9 _ (by decide), fr8 _ (by decide),
      fr7 _ (by decide), fr6 _ (by decide)]
    exact ht5
  · rw [fr13 _ (by decide), fr12 _ (by decide), fr11 _ (by decide),
      fr10 _ (by decide), fr9 _ (by decide), fr8 _ (by decide),
      fr7 _ (by decide)]
    exact ht6
  · rw [fr13 _ (by decide), fr12 _ (by decide), fr11 _ (by decide),
      fr10 _ (by decide), fr9 _ (by decide), fr8 _ (by decide)]
    exact ht7
  · rw [fr13 _ (by decide), fr12 _ (by decide), fr11 _ (by decide),
      fr10 _ (by decide), fr9 _ (by decide)]
    exact ht8
  · rw [fr13 _ (by decide), fr12 _ (by decide), fr11 _ (by decide),
      fr10 _ (by decide)]
    exact ht9
  · rw [fr13 _ (by decide), fr12 _ (by decide), fr11 _ (by decide)]
    exact ht10
  · rw [fr13 _ (by decide), fr12 _ (by decide)]
    exact hsamp11
  · exact EnumHead_frame (by decide) (by decide) henum12 hfk13
  · exact htot13

/-- The full repair pass is the identity on a dict in the thirteen-fold
fixed-point shape. -/
theorem repair_obj_suf {kvs : List (String × JVal)} (hg : GoodRepair kvs) :
    analyze_insights_repair (.jobj kvs) = .ok (.jobj kvs) := by
  obtain ⟨hpain, hstar, hsent, hpd, ht1, ht2, ht3, ht4, ht5, ht6, hsamp,
    henum, htot⟩ := hg
  have s1 : painIndexStep (.jobj kvs) = .ok (.jobj kvs) :=
    guardedStep_suf_slotFix hpain
  have s2 : starRatingStep (.jobj kvs) = .ok (.jobj kvs) :=
    nestedStep_suf (PNull starRepair) (fun v hv => nullSkip_fix hv) hstar
  have s3 : sentimentStep (.jobj kvs) = .ok (.jobj kvs) :=
    sentimentStep_suf hsent
  have s4 : problemDistStep (.jobj kvs) = .ok (.jobj kvs) :=
    guardedStep_suf_slotFix hpd
  have s5 : truncStep "key_metrics" 5 (.jobj kvs) = .ok (.jobj kvs) :=
    truncStep_suf ht1
  have s6 : truncStep "active_outages" 10 (.jobj kvs) = .ok (.jobj kvs) :=
    truncStep_suf ht2
  have s7 : truncStep "geographic_hotspots" 5 (.jobj kvs) = .ok (.jobj kvs) :=
    truncStep_suf ht3
  have s8 : truncStep "recent_activity" 8 (.jobj kvs) = .ok (.jobj kvs) :=
    truncStep_suf ht4
  have s9 : truncStep "critical_insights" 4 (.jobj kvs) = .ok (.jobj kvs) :=
    truncStep_suf ht5
  have s10 : truncStep "recommendations" 3 (.jobj kvs) = .ok (.jobj kvs) :=
    truncStep_suf ht6
  have s11 : samplesStep (.jobj kvs) = .ok (.jobj kvs) :=
    nestedStep_suf (PTrunc 4) (fun v hv => truncSlot_fixOf hv) hsamp
  have s12 : enumStep (.jobj kvs) = .ok (.jobj kvs) :=
    enumStep_suf henum
  have s13 : totalReportsStep (.jobj kvs) = .ok (.jobj kvs) :=
    nestedStep_suf (PNull totalRepair) (fun v hv => nullSkip_fix hv) htot
  unfold analyze_insights_repair
  simp only [ebind_ok s1, ebind_ok s2, ebind_ok s3, ebind_ok s4, ebind_ok s5,
    ebind_ok s6, ebind_ok s7, ebind_ok s8, ebind_ok s9, ebind_ok s10,
    ebind_ok s11, ebind_ok s12, ebind_ok s13]
  rfl

/-- A successful full repair pass on a non-dict value is the identity,
and so is a rerun. -/
theorem repair_nonobj {d e : JVal} (hno : ∀ kvs, d ≠ .jobj kvs)
    (h : analyze_insights_repair d = .ok e) :
    e = d ∧ analyze_insights_repair d = .ok d := by
  unfold analyze_insights_repair at h ⊢
  obtain ⟨d1, h1, hr1⟩ := ebind_inv h
  obtain ⟨he1, hs1⟩ := guardedStep_nonobj _ _ _ _ hno h1
  rw [he1] at hr1
  obtain ⟨d2, h2, hr2⟩ := ebind_inv hr1
  obtain ⟨he2, hs2⟩ := guardedStep_nonobj _ _ _ _ hno h2
  rw [he2] at hr2
  obtain ⟨d3, h3, hr3⟩ := ebind_inv hr2
  obtain ⟨he3, hs3⟩ := guardedStep_nonobj _ _ _ _ hno h3
  rw [he3] at hr3
  obtain ⟨d4, h4, hr4⟩ := ebind_inv hr3
  obtain ⟨he4, hs4⟩ := guardedStep_nonobj _ _ _ _ hno h4
  rw [he4] at hr4
  obtain ⟨d5, h5, hr5⟩ := ebind_inv hr4
  obtain ⟨he5, hs5⟩ := guardedStep_nonobj _ _ _ _ hno h5
  rw [he5] at hr5
  obtain ⟨d6, h6, hr6⟩ := ebind_inv hr5
  obtain ⟨he6, hs6⟩ := guardedStep_nonobj _ _ _ _ hno h6
  rw [he6] at hr6
  obtain ⟨d7, h7, hr7⟩ := ebind_inv hr6
  obtain ⟨he7, hs7⟩ := guardedStep_nonobj _ _ _ _ hno h7
  rw [he7] at hr7
  obtain ⟨d8, h8, hr8⟩ := ebind_inv hr7
  obtain ⟨he8, hs8⟩ := guardedStep_nonobj _ _ _ _ hno h8
  rw [he8] at hr8
  obtain ⟨d9, h9, hr9⟩ := ebind_inv hr8
  obtain ⟨he9, hs9⟩ := guardedStep_nonobj _ _ _ _ hno h9
  rw [he9] at hr9
  obtain ⟨d10, h10, hr10⟩ := ebind_inv hr9
  obtain ⟨he10, hs10⟩ := guardedStep_nonobj _ _ _ _ hno h10
  rw [he10] at hr10
  obtain ⟨d11, h11, hr11⟩ := ebind_inv hr10
  obtain ⟨he11, hs11⟩ := guardedStep_nonobj _ _ _ _ hno h11
  rw [he11] at hr11
  obtain ⟨d12, h12, hr12⟩ := ebind_inv hr11
  obtain ⟨he12, hs12⟩ := guardedStep_nonobj _ _ _ _ hno h12
  rw [he12] at hr12
  obtain ⟨d13, h13, hr13⟩ := ebind_inv hr12
  obtain ⟨he13, hs13⟩ := guardedStep_nonobj _ _ _ _ hno h13
  rw [he13] at hr13
  refine ⟨(pure_ok hr13).symm, ?_⟩
  have t1 : painIndexStep d = .ok d := hs1
  have t2 : starRatingStep d = .ok d := hs2
  have t3 : sentimentStep d = .ok d := hs3
  have t4 : problemDistStep d = .ok d := hs4
  have t5 : truncStep "key_metrics" 5 d = .ok d := hs5
  have t6 : truncStep "active_outages" 10 d = .ok d := hs6
  have t7 : truncStep "geographic_hotspots" 5 d = .ok d := hs7
  have t8 : truncStep "recent_activity" 8 d = .ok d := hs8
  have t9 : truncStep "critical_insights" 4 d = .ok d := hs9
  have t10 : truncStep "recommendations" 3 d = .ok d := hs10
  have t11 : samplesStep d = .ok d := hs11
  have t12 : enumStep d = .ok d := hs12
  have t13 : totalReportsStep d = .ok d := hs13
  simp only [ebind_ok t1, ebind_ok t2, ebind_ok t3, ebind_ok t4,
    ebind_ok t5, ebind_ok t6, ebind_ok t7, ebind_ok t8, ebind_ok t9,
    ebind_ok t10, ebind_ok t11, ebind_ok t12, ebind_ok t13]
  rfl

/-- Idempotence of the full repair pass over this embedding, all
inputs.  This is a fact of the exact-rational number model: under the
source's IEEE-double arithmetic the renormalization can emit an
out-of-range component that a second pass then changes. -/
theorem repair_idem_aux {d e : JVal} (h : analyze_insights_repair d = .ok e) :
    analyze_insights_repair e = .ok e := by
  cases d with
  | jobj kvs =>
    obtain ⟨kvs', rfl, hg⟩ := repair_obj_est h
    exact repair_obj_suf hg
  | jnull =>
    obtain ⟨rfl, hs⟩ := repair_nonobj (fun kvs hk => by cases hk) h
    exact hs
  | jbool b =>
    obtain ⟨rfl, hs⟩ := repair_nonobj (fun kvs hk => by cases hk) h
    exact hs
  | jint n =>
    obtain ⟨rfl, hs⟩ := repair_nonobj (fun kvs hk => by cases hk) h
    exact hs
  | jfloat q =>
    obtain ⟨rfl, hs⟩ := repair_nonobj (fun kvs hk => by cases hk) h
    exact hs
  | jstr s =>
    obtain ⟨rfl, hs⟩ := repair_nonobj (fun kvs hk => by cases hk) h
    exact hs
  | jarr xs =>
    obtain ⟨rfl, hs⟩ := repair_nonobj (fun kvs hk => by cases hk) h
    exact hs

/-! ## The sentiment slot action on a bare clamped triple -/

/-- A sentiment dict holding exactly the three component keys. -/
def sentTriple (a b c : Int) : List (String × JVal) :=
  [("negative", .jint a), ("neutral", .jint b), ("positive", .jint c)]

/-- On a clamped triple whose sum is 0 or 100 the sentiment slot action
changes nothing. -/
theorem sentTriple_fix {a b c : Int}
    (ha0 : 0 ≤ a) (ha1 : a ≤ 100) (hb0 : 0 ≤ b) (hb1 : b ≤ 100)
    (hc0 : 0 ≤ c) (hc1 : c ≤ 100) (hs : a + b + c = 0 ∨ a + b + c = 100) :
    sentSlotAct (.jobj (sentTriple a b c)) =
      .ok (some (.jobj (sentTriple a b c))) :=
  sentSlotAct_fix ⟨Or.inr ⟨a, rfl, ha0, ha1⟩, Or.inr ⟨b, rfl, hb0, hb1⟩,
    Or.inr ⟨c, rfl, hc0, hc1⟩, hs⟩

/-- On a clamped triple whose positive sum is not 100 the sentiment slot
action renormalizes: the first two components are rounded shares of 100,
the third is forced to the complement. -/
theorem sentTriple_renorm {a b c : Int}
    (ha0 : 0 ≤ a) (ha1 : a ≤ 100) (hb0 : 0 ≤ b) (hb1 : b ≤ 100)
    (hc0 : 0 ≤ c) (hc1 : c ≤ 100) (hne : a + b + c ≠ 100)
    (hpos : 0 < a + b + c) :
    sentSlotAct (.jobj (sentTriple a b c)) =
      .ok (some (.jobj (sentTriple
        (rhe ((a : Rat) * ((100 : Rat) / ((a + b + c : Int) : Rat))))
        (rhe ((b : Rat) * ((100 : Rat) / ((a + b + c : Int) : Rat))))
        (100 - rhe ((a : Rat) * ((100 : Rat) / ((a + b + c : Int) : Rat)))
          - rhe ((b : Rat) * ((100 : Rat) / ((a + b + c : Int) : Rat))))))) := by
  have hPa : PIntSlot (objGet (sentTriple a b c) "negative") :=
    Or.inr ⟨a, rfl, ha0, ha1⟩
  have hPb : PIntSlot (objGet (sentTriple a b c) "neutral") :=
    Or.inr ⟨b, rfl, hb0, hb1⟩
  have hPc : PIntSlot (objGet (sentTriple a b c) "positive") :=
    Or.inr ⟨c, rfl, hc0, hc1⟩
  unfold sentSlotAct
  rw [ebind_ok (clampKey_fix hPa)]
  rw [ebind_ok (clampKey_fix hPb)]
  rw [ebind_ok (clampKey_fix hPc)]
  rw [ebind_ok (pyGetDefault_obj _ _ _)]
  have hga : (objGet (sentTriple a b c) "negative").getD (.jint 0) = .jint a := rfl
  have hgb : (objGet (sentTriple a b c) "neutral").getD (.jint 0) = .jint b := rfl
  have hgc : (objGet (sentTriple a b c) "positive").getD (.jint 0) = .jint c := rfl
  simp only [hga]
  rw [ebind_ok (pyGetDefault_obj _ _ _)]
  simp only [hgb]
  rw [ebind_ok (pyGetDefault_obj _ _ _)]
  simp only [hgc]
  rw [ebind_ok (pyAdd_jint _ _)]
  rw [ebind_ok (pyAdd_jint _ _)]
  have hne' : pyNe100 (.jint (a + b + c)) = true := by
    simp [pyNe100, hne]
  rw [hne', if_pos rfl]
  have hgt : pyGt0 (.jint (a + b + c)) = .ok (decide (0 < a + b + c)) := rfl
  rw [ebind_ok hgt]
  rw [if_pos (decide_eq_true hpos)]
  have hs0 : ((a + b + c : Int) : Rat) ≠ 0 := by
    have : (0 : Rat) < ((a + b + c : Int) : Rat) := by exact_mod_cast hpos
    linarith
  rw [ebind_ok (sentRenorm_eval hs0 hga hgb)]
  rfl

/-! ## Forward evaluation of the None-guarded and truncation steps -/

/-- A successful guarded None-skipping repair on a present non-null value
writes the repaired value. -/
theorem guardedStep_nullWrite {key : String} {g : JVal → JVal}
    {kvs : List (String × JVal)} {v e : JVal}
    (hg : objGet kvs key = some v) (hv : v ≠ .jnull)
    (h : guardedStep key (nullSkip g) (.jobj kvs) = .ok e) :
    e = .jobj (objSet kvs key (g v)) := by
  rw [guardedStep_obj_fval _ _ _ _ hg] at h
  have hnv : nullSkip g v = .ok (some (g v)) := by
    unfold nullSkip
    rw [if_neg hv]
  rw [hnv] at h
  simp only [Except.bind] at h
  cases h
  rfl

/-- A successful nested None-skipping repair on a present non-null inner
value writes the repaired value in place. -/
theorem nestedStep_nullWrite {k1 k2 : String} {g : JVal → JVal}
    {kvs hk : List (String × JVal)} {v e : JVal}
    (hg : objGet kvs k1 = some (.jobj hk)) (hsub : objGet hk k2 = some v)
    (hv : v ≠ .jnull)
    (h : nestedStep k1 k2 (nullSkip g) (.jobj kvs) = .ok e) :
    e = .jobj (objSet kvs k1 (.jobj (objSet hk k2 (g v)))) := by
  unfold nestedStep at h
  rw [guardedStep_obj_fval _ _ _ _ hg] at h
  rw [nestedSlot_obj_fval _ _ _ _ hsub] at h
  have hnv : nullSkip g v = .ok (some (g v)) := by
    unfold nullSkip
    rw [if_neg hv]
  rw [hnv] at h
  simp only [Except.bind] at h
  cases h
  rfl

/-- The truncation slot action on a list. -/
theorem truncSlot_arr (bound : Nat) (xs : List JVal) :
    truncSlot bound (.jarr xs) =
      if bound < xs.length then .ok (some (.jarr (xs.take bound)))
      else .ok none := by
  unfold truncSlot
  by_cases hb : bound < xs.length
  · simp only [pyLen, if_pos hb, pySlice]
  · simp only [pyLen, if_neg hb]

/-- A truncation step on a present list truncates it exactly when it is
longer than the bound, keeping the first elements. -/
theorem truncStep_arr {key : String} {bound : Nat}
    {kvs : List (String × JVal)} {xs : List JVal}
    (hg : objGet kvs key = some (.jarr xs)) :
    truncStep key bound (.jobj kvs) =
      .ok (.jobj (if bound < xs.length
        then objSet kvs key (.jarr (xs.take bound)) else kvs)) := by
  unfold truncStep
  rw [guardedStep_obj_fval _ _ _ _ hg, truncSlot_arr]
  by_cases hb : bound < xs.length
  · rw [if_pos hb, if_pos hb]
    simp only [Except.bind]
  · rw [if_neg hb, if_neg hb]
    rfl

/-- The sentiment.samples truncation on a present list. -/
theorem samplesStep_arr {kvs sk : List (String × JVal)} {xs : List JVal}
    (hg : objGet kvs "sentiment" = some (.jobj sk))
    (hsub : objGet sk "samples" = some (.jarr xs)) :
    samplesStep (.jobj kvs) =
      .ok (.jobj (if 4 < xs.length
        then objSet kvs "sentiment"
          (.jobj (objSet sk "samples" (.jarr (xs.take 4))))
        else kvs)) := by
  unfold samplesStep nestedStep
  rw [guardedStep_obj_fval _ _ _ _ hg, nestedSlot_obj_fval _ _ _ _ hsub,
    truncSlot_arr]
  by_cases hb : 4 < xs.length
  · rw [if_pos hb, if_pos hb]
    simp only [Except.bind]
  · rw [if_neg hb, if_neg hb]
    rfl

/-! ## Forward evaluation of the enum step -/

theorem enumFix_cons_head {key : String} {v dflt : JVal} {allowed : List JVal}
    (rest : List (String × JVal)) :
    enumFix (.jobj ((key, v) :: rest)) key allowed dflt =
      .ok (.jobj ((key, if v ∈ allowed then v else dflt) :: rest)) := by
  unfold enumFix
  rw [guardedStep_obj_fval _ _ _ _
    (show objGet ((key, v) :: rest) key = some v by simp [objGet])]
  by_cases hv : v ∈ allowed
  · rw [if_pos hv, if_pos hv]
    simp only [Except.bind]
  · rw [if_neg hv, if_neg hv]
    simp only [Except.bind, pySetItem]
    simp [objSet]

theorem enumFix_cons_second {key1 key2 : String} (hne : key1 ≠ key2)
    {x w dflt : JVal} {allowed : List JVal} (hk : List (String × JVal)) :
    enumFix (.jobj ((key1, x) :: (key2, w) :: hk)) key2 allowed dflt =
      .ok (.jobj ((key1, x) :: (key2, if w ∈ allowed then w else dflt) :: hk)) := by
  unfold enumFix
  rw [guardedStep_obj_fval _ _ _ _
    (show objGet ((key1, x) :: (key2, w) :: hk) key2 = some w by
      simp [objGet, hne])]
  by_cases hw : w ∈ allowed
  · rw [if_pos hw, if_pos hw]
    simp only [Except.bind]
  · rw [if_neg hw, if_neg hw]
    simp only [Except.bind, pySetItem]
    simp [objSet, hne]

theorem enumSlotAct_cons (v w : JVal) (hk : List (String × JVal)) :
    enumSlotAct (.jobj (("status", v) :: ("status_color", w) :: hk)) =
      .ok (some (.jobj
        (("status", if v ∈ allowedStatus then v else .jstr "moderate") ::
         ("status_color",
           if w ∈ allowedStatusColor then w else .jstr "yellow") :: hk))) := by
  unfold enumSlotAct
  rw [ebind_ok (enumFix_cons_head _)]
  rw [ebind_ok (enumFix_cons_second (by decide) _)]
  rfl

/-! ## The repair pass on non-dict JSON payloads -/

/-- The top-level keys the validator guards on (lines 211-277). -/
def repairGuardKeys : List String :=
  ["pain_index", "header", "sentiment", "problem_distribution",
   "key_metrics", "active_outages", "geographic_hotspots",
   "recent_activity", "critical_insights", "recommendations"]

/-- A list containing none of the guarded keys as strings passes every
guard of the repair pass untouched. -/
theorem repair_jarr {xs : List JVal}
    (hno : ∀ k ∈ repairGuardKeys, JVal.jstr k ∉ xs) :
    analyze_insights_repair (.jarr xs) = .ok (.jarr xs) := by
  have step : ∀ key, key ∈ repairGuardKeys →
      ∀ f, guardedStep key f (.jarr xs) = .ok (.jarr xs) := by
    intro key hk f
    have hb : (xs.any (fun x => x == JVal.jstr key)) = false := by
      rw [List.any_eq_false]
      intro x hx
      have hxne : x ≠ JVal.jstr key := by
        intro hc
        exact hno key hk (hc ▸ hx)
      simp [hxne]
    rw [guardedStep_jarr, if_neg (by simp [hb])]
  have s1 : painIndexStep (.jarr xs) = .ok (.jarr xs) :=
    step "pain_index" (by simp [repairGuardKeys]) _
  have s2 : starRatingStep (.jarr xs) = .ok (.jarr xs) :=
    step "header" (by simp [repairGuardKeys]) _
  have s3 : sentimentStep (.jarr xs) = .ok (.jarr xs) :=
    step "sentiment" (by simp [repairGuardKeys]) _
  have s4 : problemDistStep (.jarr xs) = .ok (.jarr xs) :=
    step "problem_distribution" (by simp [repairGuardKeys]) _
  have s5 : truncStep "key_metrics" 5 (.jarr xs) = .ok (.jarr xs) :=
    step "key_metrics" (by simp [repairGuardKeys]) _
  have s6 : truncStep "active_outages" 10 (.jarr xs) = .ok (.jarr xs) :=
    step "active_outages" (by simp [repairGuardKeys]) _
  have s7 : truncStep "geographic_hotspots" 5 (.jarr xs) = .ok (.jarr xs) :=
    step "geographic_hotspots" (by simp [repairGuardKeys]) _
  have s8 : truncStep "recent_activity" 8 (.jarr xs) = .ok (.jarr xs) :=
    step "recent_activity" (by simp [repairGuardKeys]) _
  have s9 : truncStep "critical_insights" 4 (.jarr xs) = .ok (.jarr xs) :=
    step "critical_insights" (by simp [repairGuardKeys]) _
  have s10 : truncStep "recommendations" 3 (.jarr xs) = .ok (.jarr xs) :=
    step "recommendations" (by simp [repairGuardKeys]) _
  have s11 : samplesStep (.jarr xs) = .ok (.jarr xs) :=
    step "sentiment" (by simp [repairGuardKeys]) _
  have s12 : enumStep (.jarr xs) = .ok (.jarr xs) :=
    step "header" (by simp [repairGuardKeys]) _
  have s13 : totalReportsStep (.jarr xs) = .ok (.jarr xs) :=
    step "header" (by simp [repairGuardKeys]) _
  unfold analyze_insights_repair
  simp only [ebind_ok s1, ebind_ok s2, ebind_ok s3, ebind_ok s4, ebind_ok s5,
    ebind_ok s6, ebind_ok s7, ebind_ok s8, ebind_ok s9, ebind_ok s10,
    ebind_ok s11, ebind_ok s12, ebind_ok s13]
  rfl

/-- A scalar payload raises TypeError at the first membership test. -/
theorem repair_scalar_float (q : Rat) :
    analyze_insights_repair (.jfloat q) = .error .typeError := rfl

/-! ## Slot evolution through the repair pass -/

/-- How a guarded step may change its slot: untouched, or overwritten
with a value the slot action produced from the old one. -/
def SlotEvolve (f : JVal → Except PyErr (Option JVal))
    (o o' : Option JVal) : Prop :=
  o' = o ∨ ∃ v v', o = some v ∧ o' = some v' ∧ f v = .ok (some v')

theorem guardedStep_evolve {key : String}
    {f : JVal → Except PyErr (Option JVal)}
    {kvs : List (String × JVal)} {e : JVal}
    (h : guardedStep key f (.jobj kvs) = .ok e) :
    ∃ kvs', e = .jobj kvs' ∧
      (∀ k, k ≠ key → objGet kvs' k = objGet kvs k) ∧
      kvs'.map Prod.fst = kvs.map Prod.fst ∧
      SlotEvolve f (objGet kvs key) (objGet kvs' key) := by
  obtain ⟨kvs', he, _, hfr, hkeys, hrel⟩ := guardedStep_est (fun _ => True)
    trivial (fun _ _ _ => trivial) (fun _ _ _ _ => trivial) h
  refine ⟨kvs', he, hfr, hkeys, ?_⟩
  rcases hrel with hrel | ⟨v, v', hg, hg', hf⟩
  · exact Or.inl hrel
  · exact Or.inr ⟨v, v', hg, hg', hf⟩

/-- How a nested step may change its outer slot. -/
def NestWrite (k2 : String) (f : JVal → Except PyErr (Option JVal))
    (o o' : Option JVal) : Prop :=
  o' = o ∨ ∃ hk w w', o = some (.jobj hk) ∧ objGet hk k2 = some w ∧
    f w = .ok (some w') ∧ o' = some (.jobj (objSet hk k2 w'))

theorem nestedStep_evolve {k1 k2 : String}
    {f : JVal → Except PyErr (Option JVal)}
    {kvs : List (String × JVal)} {e : JVal}
    (h : nestedStep k1 k2 f (.jobj kvs) = .ok e) :
    ∃ kvs', e = .jobj kvs' ∧
      (∀ k, k ≠ k1 → objGet kvs' k = objGet kvs k) ∧
      kvs'.map Prod.fst = kvs.map Prod.fst ∧
      NestWrite k2 f (objGet kvs k1) (objGet kvs' k1) := by
  unfold nestedStep at h
  obtain ⟨kvs', he, hfr, hkeys, hrel⟩ := guardedStep_evolve h
  refine ⟨kvs', he, hfr, hkeys, ?_⟩
  rcases hrel with hrel | ⟨v, v', hg, hg', hf⟩
  · exact Or.inl hrel
  · obtain ⟨hk, w, w', rfl, hsub, hfw, rfl⟩ := nestedSlot_write_inv hf
    exact Or.inr ⟨hk, w, w', hg, hsub, hfw, hg'⟩

/-- Preservation through the header-touching steps: a dict header keeps
its key set and its null star_rating / total_reports_24h entries. -/
def HeaderNullKeep (o o' : Option JVal) : Prop :=
  ∀ hk, o = some (.jobj hk) →
    ∃ hk', o' = some (.jobj hk') ∧ hk'.map Prod.fst = hk.map Prod.fst ∧
      (objGet hk "star_rating" = some .jnull →
        objGet hk' "star_rating" = some .jnull) ∧
      (objGet hk "total_reports_24h" = some .jnull →
        objGet hk' "total_reports_24h" = some .jnull)

theorem HeaderNullKeep_refl (o : Option JVal) : HeaderNullKeep o o :=
  fun hk ho => ⟨hk, ho, rfl, id, id⟩

theorem HeaderNullKeep_of_eq {o o' : Option JVal} (he : o' = o) :
    HeaderNullKeep o o' := by
  subst he
  exact HeaderNullKeep_refl _

theorem HeaderNullKeep_comp {o o' o'' : Option JVal}
    (h1 : HeaderNullKeep o o') (h2 : HeaderNullKeep o' o'') :
    HeaderNullKeep o o'' := by
  intro hk ho
  obtain ⟨hk1, ho1, hkeys1, hs1, ht1⟩ := h1 hk ho
  obtain ⟨hk2, ho2, hkeys2, hs2, ht2⟩ := h2 hk1 ho1
  exact ⟨hk2, ho2, hkeys2.trans hkeys1, fun hn => hs2 (hs1 hn),
    fun hn => ht2 (ht1 hn)⟩

theorem HeaderNullKeep_star {o o' : Option JVal}
    (h : NestWrite "star_rating" fStar o o') : HeaderNullKeep o o' := by
  rcases h with rfl | ⟨hk0, w, w', ho, hsub, hfw, ho'⟩
  · exact HeaderNullKeep_refl _
  · intro hk hke
    rw [hke] at ho
    obtain h3 : hk = hk0 := by
      injection ho with h4
      injection h4
    subst h3
    have hws : (objGet hk "star_rating").isSome = true := by
      rw [hsub]
      rfl
    refine ⟨objSet hk "star_rating" w', ho', objSet_keys _ _ _ hws, ?_, ?_⟩
    · intro hnull
      rw [hsub] at hnull
      obtain rfl : w = .jnull := by injection hnull
      have hn : fStar JVal.jnull = .ok none := by
        unfold fStar nullSkip
        rw [if_pos rfl]
      rw [hn] at hfw
      cases hfw
    · intro hnull
      rw [objGet_objSet_ne _ _ _ _ (by decide)]
      exact hnull

theorem HeaderNullKeep_total {o o' : Option JVal}
    (h : NestWrite "total_reports_24h" fTotal o o') : HeaderNullKeep o o' := by
  rcases h with rfl | ⟨hk0, w, w', ho, hsub, hfw, ho'⟩
  · exact HeaderNullKeep_refl _
  · intro hk hke
    rw [hke] at ho
    obtain h3 : hk = hk0 := by
      injection ho with h4
      injection h4
    subst h3
    have hws : (objGet hk "total_reports_24h").isSome = true := by
      rw [hsub]
      rfl
    refine ⟨objSet hk "total_reports_24h" w', ho',
      objSet_keys _ _ _ hws, ?_, ?_⟩
    · intro hnull
      rw [objGet_objSet_ne _ _ _ _ (by decide)]
      exact hnull
    · intro hnull
      rw [hsub] at hnull
      obtain rfl : w = .jnull := by injection hnull
      have hn : fTotal JVal.jnull = .ok none := by
        unfold fTotal nullSkip
        rw [if_pos rfl]
      rw [hn] at hfw
      cases hfw

theorem HeaderNullKeep_enum {o o' : Option JVal}
    (h : HFrameKeys ["status", "status_color"] o o') : HeaderNullKeep o o' := by
  rcases h with rfl | ⟨hk0, hk1, ho, ho', hsub, hkeys⟩
  · exact HeaderNullKeep_refl _
  · intro hk hke
    rw [hke] at ho
    obtain h3 : hk = hk0 := by
      injection ho with h4
      injection h4
    subst h3
    refine ⟨hk1, ho', hkeys, ?_, ?_⟩
    · intro hnull
      rw [hsub _ (by decide)]
      exact hnull
    · intro hnull
      rw [hsub _ (by decide)]
      exact hnull

/-- The frame of a successful full repair pass on a dict: the top-level
key set survives, the pain_index slot only evolves through its own slot
action, and a dict header keeps its key set and its null-valued
star_rating / total_reports_24h entries. -/
theorem repair_obj_frame {kvs : List (String × JVal)} {e : JVal}
    (h : analyze_insights_repair (.jobj kvs) = .ok e) :
    ∃ kvs', e = .jobj kvs' ∧ kvs'.map Prod.fst = kvs.map Prod.fst ∧
      SlotEvolve fPain (objGet kvs "pain_index")
        (objGet kvs' "pain_index") ∧
      HeaderNullKeep (objGet kvs "header") (objGet kvs' "header") := by
  unfold analyze_insights_repair at h
  obtain ⟨d1, h1, hr1⟩ := ebind_inv h
  obtain ⟨k1, rfl, fr1, keys1, hev1⟩ := guardedStep_evolve h1
  obtain ⟨d2, h2, hr2⟩ := ebind_inv hr1
  obtain ⟨k2, rfl, fr2, keys2, hnw2⟩ := nestedStep_evolve h2
  obtain ⟨d3, h3, hr3⟩ := ebind_inv hr2
  obtain ⟨k3, rfl, fr3, keys3, _⟩ := guardedStep_evolve h3
  obtain ⟨d4, h4, hr4⟩ := ebind_inv hr3
  obtain ⟨k4, rfl, fr4, keys4, _⟩ := guardedStep_evolve h4
  obtain ⟨d5, h5, hr5⟩ := ebind_inv hr4
  obtain ⟨k5, rfl, fr5, keys5, _⟩ := guardedStep_evolve h5
  obtain ⟨d6, h6, hr6⟩ := ebind_inv hr5
  obtain ⟨k6, rfl, fr6, keys6, _⟩ := guardedStep_evolve h6
  obtain ⟨d7, h7, hr7⟩ := ebind_inv hr6
  obtain ⟨k7, rfl, fr7, keys7, _⟩ := guardedStep_evolve h7
  obtain ⟨d8, h8, hr8⟩ := ebind_inv hr7
  obtain ⟨k8, rfl, fr8, keys8, _⟩ := guardedStep_evolve h8
  obtain ⟨d9, h9, hr9⟩ := ebind_inv hr8
  obtain ⟨k9, rfl, fr9, keys9, _⟩ := guardedStep_evolve h9
  obtain ⟨d10, h10, hr10⟩ := ebind_inv hr9
  obtain ⟨k10, rfl, fr10, keys10, _⟩ := guardedStep_evolve h10
  obtain ⟨d11, h11, hr11⟩ := ebind_inv hr10
  obtain ⟨k11, rfl, fr11, keys11, _⟩ := nestedStep_evolve h11
  obtain ⟨d12, h12, hr12⟩ := ebind_inv hr11
  obtain ⟨k12, rfl, _, fr12, keys12, hfk12⟩ := enumStep_est h12
  obtain ⟨d13, h13, hr13⟩ := ebind_inv hr12
  obtain ⟨k13, rfl, fr13, keys13, hnw13⟩ := nestedStep_evolve h13
  cases pure_ok hr13
  refine ⟨k13, rfl, ?_, ?_, ?_⟩
  · rw [keys13, keys12, keys11, keys10, keys9, keys8, keys7, keys6, keys5,
      keys4, keys3, keys2, keys1]
  · have hp : objGet k13 "pain_index" = objGet k1 "pain_index" := by
      rw [fr13 _ (by decide), fr12 _ (by decide), fr11 _ (by decide),
        fr10 _ (by decide), fr9 _ (by decide), fr8 _ (by decide),
        fr7 _ (by decide), fr6 _ (by decide), fr5 _ (by decide),
        fr4 _ (by decide), fr3 _ (by decide), fr2 _ (by decide)]
    rw [hp]
    exact hev1
  · have e1 : HeaderNullKeep (objGet kvs "header") (objGet k1 "header") :=
      HeaderNullKeep_of_eq (fr1 _ (by decide))
    have e2 : HeaderNullKeep (objGet k1 "header") (objGet k2 "header") :=
      HeaderNullKeep_star hnw2
    have e3 : HeaderNullKeep (objGet k2 "header") (objGet k11 "header") :=
      HeaderNullKeep_of_eq (by
        rw [fr11 _ (by decide), fr10 _ (by decide), fr9 _ (by decide),
          fr8 _ (by decide), fr7 _ (by decide), fr6 _ (by decide),
          fr5 _ (by decide), fr4 _ (by decide), fr3 _ (by decide)])
    have e4 : HeaderNullKeep (objGet k11 "header") (objGet k12 "header") :=
      HeaderNullKeep_enum hfk12
    have e5 : HeaderNullKeep (objGet k12 "header") (objGet k13 "header") :=
      HeaderNullKeep_total hnw13
    exact HeaderNullKeep_comp e1 (HeaderNullKeep_comp e2
      (HeaderNullKeep_comp e3 (HeaderNullKeep_comp e4 e5)))

/-! ## Row counting for the latest-reports table -/

theorem parse_latest_reports_length (isoParse fmtParse : String → Option String) :
    ∀ rows : List (List Td),
      (parse_latest_reports isoParse fmtParse rows).length =
        rows.countP (fun cells => cells.length == 3) := by
  intro rows
  induction rows with
  | nil => rfl
  | cons cells rows ih =>
    unfold parse_latest_reports at ih ⊢
    rw [List.filterMap_cons]
    rcases cells with _ | ⟨c0, _ | ⟨c1, _ | ⟨c2, _ | ⟨c3, rest⟩⟩⟩⟩
    · simp [List.countP_cons, ih]
    · simp [List.countP_cons, ih]
    · simp [List.countP_cons, ih]
    · simp [List.countP_cons, ih]
    · simp [List.countP_cons, ih]

/-! ## The claims -/

/-- C4 (amended): a successful repair pass preserves the top-level key
set (nothing synthesized or dropped at the top level), preserves a null
pain_index, and on a dict header preserves the header key set and null
star_rating / total_reports_24h values.  (Null enum fields are replaced
by defaults, and the sentiment renormalization can add the component
keys inside a present sentiment dict: see the counterexample.) -/
theorem C4_absence_null_frame (kvs : List (String × JVal)) (e : JVal)
    (h : analyze_insights_repair (.jobj kvs) = .ok e) :
    ∃ kvs', e = .jobj kvs' ∧
      (∀ k, (objGet kvs' k).isSome = (objGet kvs k).isSome) ∧
      (objGet kvs "pain_index" = some .jnull →
        objGet kvs' "pain_index" = some .jnull) ∧
      (∀ hk, objGet kvs "header" = some (.jobj hk) →
        ∃ hk', objGet kvs' "header" = some (.jobj hk') ∧
          (∀ k, (objGet hk' k).isSome = (objGet hk k).isSome) ∧
          (objGet hk "star_rating" = some .jnull →
            objGet hk' "star_rating" = some .jnull) ∧
          (objGet hk "total_reports_24h" = some .jnull →
            objGet hk' "total_reports_24h" = some .jnull)) := by
  obtain ⟨kvs', rfl, hkeys, hev, hhead⟩ := repair_obj_frame h
  refine ⟨kvs', rfl, keys_eq_isSome hkeys, ?_, ?_⟩
  · intro hnull
    rcases hev with heq | ⟨v, v', hv, hv', hf⟩
    · rw [heq, hnull]
    · rw [hnull] at hv
      obtain rfl : v = .jnull := by injection hv with h2; exact h2.symm
      have hn : fPain JVal.jnull = .ok none := by
        unfold fPain nullSkip
        rw [if_pos rfl]
      rw [hn] at hf
      cases hf
  · intro hk hhk
    obtain ⟨hk', ho', hkeys', hs, ht⟩ := hhead hk hhk
    exact ⟨hk', ho', keys_eq_isSome hkeys', hs, ht⟩

/-- Counterexample to C4 as stated: a null header.status is not
preserved; it is replaced by the default "moderate". -/
theorem C4_counterexample :
    analyze_insights_repair (.jobj [("header", .jobj [("status", JVal.jnull)])]) =
      .ok (.jobj [("header", .jobj [("status", .jstr "moderate")])]) ∧
    JVal.jstr "moderate" ≠ JVal.jnull := by
  decide

/-- Witness for C4 at a concrete payload. -/
theorem C4_absence_null_frame_witness :
    ∃ kvs', (JVal.jobj [("pain_index", JVal.jnull)] : JVal) = .jobj kvs' ∧
      (∀ k, (objGet kvs' k).isSome =
        (objGet [("pain_index", JVal.jnull)] k).isSome) ∧
      (objGet [("pain_index", JVal.jnull)] "pain_index" = some .jnull →
        objGet kvs' "pain_index" = some .jnull) ∧
      (∀ hk, objGet [("pain_index", JVal.jnull)] "header" = some (.jobj hk) →
        ∃ hk', objGet kvs' "header" = some (.jobj hk') ∧
          (∀ k, (objGet hk' k).isSome = (objGet hk k).isSome) ∧
          (objGet hk "star_rating" = some .jnull →
            objGet hk' "star_rating" = some .jnull) ∧
          (objGet hk "total_reports_24h" = some .jnull →
            objGet hk' "total_reports_24h" = some .jnull)) :=
  C4_absence_null_frame [("pain_index", JVal.jnull)]
    (.jobj [("pain_index", JVal.jnull)]) (by decide)

/-- C5 (amended): when the stripped candidate does not parse, the
stripped text (not the verbatim raw text) is the persisted content and
no repair runs; when it parses, the repaired payload is re-serialized,
and a repair exception means nothing is persisted. -/
theorem C5_persistence (parseJson : String → Option JVal) (raw : String) :
    (parseJson (stripFences raw) = none →
      analyze_insights_content parseJson raw = .ok (stripFences raw)) ∧
    (∀ j, parseJson (stripFences raw) = some j →
      (∀ d, analyze_insights_repair j = .ok d →
        analyze_insights_content parseJson raw = .ok (dumpsJ d)) ∧
      (∀ err, analyze_insights_repair j = .error err →
        analyze_insights_content parseJson raw = .error err)) := by
  constructor
  · intro hnone
    simp only [analyze_insights_content]
    rw [hnone]
  · intro j hsome
    constructor
    · intro d hd
      simp only [analyze_insights_content]
      rw [hsome]
      show Except.map dumpsJ (analyze_insights_repair j) = Except.ok (dumpsJ d)
      rw [hd]
      rfl
    · intro err herr
      simp only [analyze_insights_content]
      rw [hsome]
      show Except.map dumpsJ (analyze_insights_repair j) = Except.error err
      rw [herr]
      rfl

/-- Counterexample to C5 as stated: on unparseable input the persisted
text is the stripped text, which differs from the verbatim raw text. -/
theorem C5_counterexample :
    analyze_insights_content (fun _ => none) "```\nnot json\n```" =
      .ok "not json" ∧
    ("not json" : String) ≠ "```\nnot json\n```" := by
  constructor
  · decide
  · decide

/-- Witness for C5 at a concrete input. -/
theorem C5_persistence_witness :
    analyze_insights_content (fun _ => none) "abc" = .ok (stripFences "abc") :=
  (C5_persistence (fun _ => none) "abc").1 rfl

/-- C6: a present bounded array longer than its bound is truncated to
exactly the bound (the first elements, in order); one at or under the
bound is left unchanged; sentiment.samples behaves the same through its
nested step. -/
theorem C6_truncation (key : String) (bound : Nat)
    (kvs : List (String × JVal)) (xs : List JVal)
    (hg : objGet kvs key = some (.jarr xs)) :
    truncStep key bound (.jobj kvs) =
      .ok (.jobj (if bound < xs.length
        then objSet kvs key (.jarr (xs.take bound)) else kvs)) ∧
    (bound < xs.length → (xs.take bound).length = bound) ∧
    (∀ sk kvs2, objGet kvs2 "sentiment" = some (.jobj sk) →
      objGet sk "samples" = some (.jarr xs) →
      samplesStep (.jobj kvs2) =
        .ok (.jobj (if 4 < xs.length
          then objSet kvs2 "sentiment"
            (.jobj (objSet sk "samples" (.jarr (xs.take 4))))
          else kvs2))) :=
  ⟨truncStep_arr hg,
   fun hb => by rw [List.length_take]; omega,
   fun sk kvs2 hg2 hs2 => samplesStep_arr hg2 hs2⟩

/-- Witness for C6: a six-element key_metrics list is cut to five. -/
theorem C6_truncation_witness :
    truncStep "key_metrics" 5 (.jobj [("key_metrics", .jarr
      [.jint 1, .jint 2, .jint 3, .jint 4, .jint 5, .jint 6])]) =
      .ok (.jobj [("key_metrics", .jarr
        [.jint 1, .jint 2, .jint 3, .jint 4, .jint 5])]) :=
  ((C6_truncation "key_metrics" 5
    [("key_metrics", .jarr [.jint 1, .jint 2, .jint 3, .jint 4, .jint 5, .jint 6])]
    [.jint 1, .jint 2, .jint 3, .jint 4, .jint 5, .jint 6] rfl).1).trans (by decide)

/-- A guarded enum check on a dict always yields a dict. -/
theorem enumFix_obj_out {hk : List (String × JVal)} {key : String}
    {allowed : List JVal} {dflt e : JVal}
    (h : enumFix (.jobj hk) key allowed dflt = .ok e) :
    ∃ hk', e = .jobj hk' := by
  obtain ⟨hk', he, _, _, _, _⟩ := guardedStep_est (fun _ => True) trivial
    (fun _ _ _ => trivial) (fun _ _ _ _ => trivial) h
  exact ⟨hk', he⟩

/-- Slotwise effect of one guarded enum check on a dict: a present value
is replaced by the default exactly when it is outside the allowed list,
an absent key stays absent, every other key is untouched. -/
theorem enumFix_slots {key : String} {allowed : List JVal} {dflt : JVal}
    {hk hk' : List (String × JVal)}
    (h : enumFix (.jobj hk) key allowed dflt = .ok (.jobj hk')) :
    (∀ v, objGet hk key = some v →
      objGet hk' key = some (if v ∈ allowed then v else dflt)) ∧
    (objGet hk key = none → objGet hk' key = none) ∧
    (∀ k, k ≠ key → objGet hk' k = objGet hk k) := by
  unfold enumFix at h
  cases hg : objGet hk key with
  | none =>
    rw [guardedStep_obj_none _ _ _ hg] at h
    cases h
    exact ⟨fun v hv => (by cases hv), fun _ => hg, fun k _ => rfl⟩
  | some v0 =>
    rw [guardedStep_obj_fval _ _ _ _ hg] at h
    by_cases hv0 : v0 ∈ allowed
    · rw [if_pos hv0] at h
      simp only [Except.bind] at h
      cases h
      refine ⟨?_, ?_, fun k _ => rfl⟩
      · intro v hv
        obtain rfl : v0 = v := by injection hv
        rw [if_pos hv0]
        exact hg
      · intro hnone
        cases hnone
    · rw [if_neg hv0] at h
      simp only [Except.bind] at h
      cases h
      refine ⟨?_, ?_, fun k hkne => objGet_objSet_ne _ _ _ _ hkne⟩
      · intro v hv
        obtain rfl : v0 = v := by injection hv
        rw [if_neg hv0, objGet_objSet_self]
      · intro hnone
        cases hnone

/-- C7: for every candidate whose header is a dict, the two enum guards
act independently: a present header.status outside the allowed set
becomes "moderate" and a present header.status_color outside its set
becomes "yellow" (each kept unchanged when allowed and left absent when
absent, whatever its position), no other header key and no other
top-level key changing. -/
theorem C7_enum_defaults (kvs hk : List (String × JVal)) (e : JVal)
    (hg : objGet kvs "header" = some (.jobj hk))
    (h : enumStep (.jobj kvs) = .ok e) :
    ∃ kvs' hk', e = .jobj kvs' ∧ objGet kvs' "header" = some (.jobj hk') ∧
      (∀ v, objGet hk "status" = some v →
        objGet hk' "status" =
          some (if v ∈ allowedStatus then v else .jstr "moderate")) ∧
      (objGet hk "status" = none → objGet hk' "status" = none) ∧
      (∀ w, objGet hk "status_color" = some w →
        objGet hk' "status_color" =
          some (if w ∈ allowedStatusColor then w else .jstr "yellow")) ∧
      (objGet hk "status_color" = none → objGet hk' "status_color" = none) ∧
      (∀ k, k ≠ "status" → k ≠ "status_color" →
        objGet hk' k = objGet hk k) ∧
      (∀ k, k ≠ "header" → objGet kvs' k = objGet kvs k) := by
  unfold enumStep at h
  rw [guardedStep_obj_fval _ _ _ _ hg] at h
  cases hact : enumSlotAct (.jobj hk) with
  | error err =>
    rw [hact] at h
    simp [Except.bind] at h
  | ok o =>
    rw [hact] at h
    simp only [Except.bind] at h
    cases o with
    | none => exact (enumSlotAct_no_none hact).elim
    | some hv =>
      cases h
      unfold enumSlotAct at hact
      obtain ⟨h1v, hfix1, hact2⟩ := ebind_inv hact
      obtain ⟨hk1, rfl⟩ := enumFix_obj_out hfix1
      obtain ⟨h2v, hfix2, hact3⟩ := ebind_inv hact2
      obtain ⟨hk2, rfl⟩ := enumFix_obj_out hfix2
      have h4 : some (JVal.jobj hk2) = some hv := pure_ok hact3
      injection h4 with h5
      subst h5
      obtain ⟨hs1a, hs1b, hs1c⟩ := enumFix_slots hfix1
      obtain ⟨hs2a, hs2b, hs2c⟩ := enumFix_slots hfix2
      refine ⟨objSet kvs "header" (.jobj hk2), hk2, rfl,
        objGet_objSet_self _ _ _, ?_, ?_, ?_, ?_, ?_, ?_⟩
      · intro v hv0
        rw [hs2c "status" (by decide)]
        exact hs1a v hv0
      · intro hnone
        rw [hs2c "status" (by decide)]
        exact hs1b hnone
      · intro w hw0
        refine hs2a w ?_
        rw [hs1c "status_color" (by decide)]
        exact hw0
      · intro hnone
        refine hs2b ?_
        rw [hs1c "status_color" (by decide)]
        exact hnone
      · intro k h1k h2k
        rw [hs2c k h2k, hs1c k h1k]
      · intro k hkne
        exact objGet_objSet_ne _ _ _ _ hkne

/-- Witness for C7: the spec instance, status "outage" replaced by
"moderate". -/
theorem C7_enum_defaults_witness :
    ∃ kvs' hk',
      (JVal.jobj [("header", JVal.jobj [("status", JVal.jstr "moderate")])] :
        JVal) = .jobj kvs' ∧
      objGet kvs' "header" = some (.jobj hk') ∧
      (∀ v, objGet [("status", JVal.jstr "outage")] "status" = some v →
        objGet hk' "status" =
          some (if v ∈ allowedStatus then v else .jstr "moderate")) ∧
      (objGet [("status", JVal.jstr "outage")] "status" = none →
        objGet hk' "status" = none) ∧
      (∀ w, objGet [("status", JVal.jstr "outage")] "status_color" = some w →
        objGet hk' "status_color" =
          some (if w ∈ allowedStatusColor then w else .jstr "yellow")) ∧
      (objGet [("status", JVal.jstr "outage")] "status_color" = none →
        objGet hk' "status_color" = none) ∧
      (∀ k, k ≠ "status" → k ≠ "status_color" →
        objGet hk' k = objGet [("status", JVal.jstr "outage")] k) ∧
      (∀ k, k ≠ "header" → objGet kvs' k =
        objGet [("header", JVal.jobj [("status", JVal.jstr "outage")])] k) :=
  C7_enum_defaults [("header", .jobj [("status", .jstr "outage")])]
    [("status", .jstr "outage")]
    (.jobj [("header", .jobj [("status", .jstr "moderate")])]) rfl (by decide)

/-- C8 (amended): exactly the rows with three cells contribute entries,
each mapped to city / reason / human time / normalized datetime, in
source order; a row with any other cell count is skipped without
affecting its siblings, so 5 valid rows among 6 yield 5 entries. -/
theorem C8_latest_reports (isoParse fmtParse : String → Option String) :
    (∀ rows : List (List Td),
      (parse_latest_reports isoParse fmtParse rows).length =
        rows.countP (fun cells => cells.length == 3)) ∧
    (∀ c0 c1 c2 rows,
      parse_latest_reports isoParse fmtParse ([c0, c1, c2] :: rows) =
        { city := c0.txt, reason := c1.txt, time_human := c2.txt,
          time_iso := parse_datetime isoParse fmtParse
            (attrDatetime c2.timeEl) } ::
          parse_latest_reports isoParse fmtParse rows) ∧
    (∀ cells rows, cells.length ≠ 3 →
      parse_latest_reports isoParse fmtParse (cells :: rows) =
        parse_latest_reports isoParse fmtParse rows) := by
  refine ⟨parse_latest_reports_length isoParse fmtParse, ?_, ?_⟩
  · intro c0 c1 c2 rows
    rfl
  · intro cells rows hne
    unfold parse_latest_reports
    rw [List.filterMap_cons]
    rcases cells with _ | ⟨c0, _ | ⟨c1, _ | ⟨c2, _ | ⟨c3, rest⟩⟩⟩⟩
    · rfl
    · rfl
    · rfl
    · exact absurd rfl hne
    · rfl

/-- Counterexample to C8 as stated: one malformed 2-cell row among five
valid 3-cell rows yields five entries, not four. -/
theorem C8_counterexample :
    (parse_latest_reports (fun _ => none) (fun _ => none)
      [[⟨"a", none⟩, ⟨"b", none⟩, ⟨"c", none⟩],
       [⟨"a", none⟩, ⟨"b", none⟩, ⟨"c", none⟩],
       [⟨"a", none⟩, ⟨"b", none⟩],
       [⟨"a", none⟩, ⟨"b", none⟩, ⟨"c", none⟩],
       [⟨"a", none⟩, ⟨"b", none⟩, ⟨"c", none⟩],
       [⟨"a", none⟩, ⟨"b", none⟩, ⟨"c", none⟩]]).length = 5 ∧
    (parse_latest_reports (fun _ => none) (fun _ => none)
      [[⟨"a", none⟩, ⟨"b", none⟩, ⟨"c", none⟩],
       [⟨"a", none⟩, ⟨"b", none⟩, ⟨"c", none⟩],
       [⟨"a", none⟩, ⟨"b", none⟩],
       [⟨"a", none⟩, ⟨"b", none⟩, ⟨"c", none⟩],
       [⟨"a", none⟩, ⟨"b", none⟩, ⟨"c", none⟩],
       [⟨"a", none⟩, ⟨"b", none⟩, ⟨"c", none⟩]]).length ≠ 4 := by
  constructor
  · decide
  · decide

/-- Witness for C8: a lone malformed 2-cell row contributes nothing. -/
theorem C8_latest_reports_witness :
    parse_latest_reports (fun _ => none) (fun _ => none)
      [[⟨"a", none⟩, ⟨"b", none⟩]] =
      parse_latest_reports (fun _ => none) (fun _ => none) [] :=
  (C8_latest_reports _ _).2.2 [⟨"a", none⟩, ⟨"b", none⟩] [] (by decide)

/-- C9: an entirely missing region yields an empty sequence or empty
dict for its field, and each of the three extracted fields depends only
on its own region. -/
theorem C9_missing_regions (isoParse fmtParse : String → Option String)
    (soup : Soup) :
    (soup.doughnutLis = [] →
      (parse_outage_page_part isoParse fmtParse soup).most_reported_problems
        = []) ∧
    (soup.starRatingText = none →
      (parse_outage_page_part isoParse fmtParse soup).star_rating = []) ∧
    (∀ soup2 : Soup, soup2.latestReportRows = soup.latestReportRows →
      (parse_outage_page_part isoParse fmtParse soup2).latest_reports =
        (parse_outage_page_part isoParse fmtParse soup).latest_reports) ∧
    (∀ soup2 : Soup, soup2.doughnutLis = soup.doughnutLis →
      (parse_outage_page_part isoParse fmtParse soup2).most_reported_problems =
        (parse_outage_page_part isoParse fmtParse soup).most_reported_problems) ∧
    (∀ soup2 : Soup, soup2.starRatingText = soup.starRatingText →
      (parse_outage_page_part isoParse fmtParse soup2).star_rating =
        (parse_outage_page_part isoParse fmtParse soup).star_rating) := by
  refine ⟨?_, ?_, ?_, ?_, ?_⟩
  · intro h
    simp [parse_outage_page_part, parse_most_reported, h]
  · intro h
    simp [parse_outage_page_part, parse_star_rating, h]
  · intro soup2 h
    simp [parse_outage_page_part, h]
  · intro soup2 h
    simp [parse_outage_page_part, h]
  · intro soup2 h
    simp [parse_outage_page_part, h]

/-- Witness for C9 on a soup with both regions absent. -/
theorem C9_missing_regions_witness :
    (parse_outage_page_part (fun _ => none) (fun _ => none)
      ⟨none, [], []⟩).most_reported_problems = [] ∧
    (parse_outage_page_part (fun _ => none) (fun _ => none)
      ⟨none, [], []⟩).star_rating = [] :=
  ⟨(C9_missing_regions (fun _ => none) (fun _ => none) ⟨none, [], []⟩).1 rfl,
   (C9_missing_regions (fun _ => none) (fun _ => none) ⟨none, [], []⟩).2.1 rfl⟩

/-- C10 (amended): a top-level array none of whose elements is a guarded
key string passes the repair pass unchanged, and a top-level scalar
raises an uncaught TypeError at the first membership test (so nothing is
persisted).  An array that does contain a guarded key string also
raises: see the counterexample. -/
theorem C10_nonobject_payloads :
    (∀ xs : List JVal, (∀ k ∈ repairGuardKeys, JVal.jstr k ∉ xs) →
      analyze_insights_repair (.jarr xs) = .ok (.jarr xs)) ∧
    analyze_insights_repair .jnull = .error .typeError ∧
    (∀ b, analyze_insights_repair (.jbool b) = .error .typeError) ∧
    (∀ n : Int, analyze_insights_repair (.jint n) = .error .typeError) ∧
    (∀ q : Rat, analyze_insights_repair (.jfloat q) = .error .typeError) :=
  ⟨fun _ h => repair_jarr h, rfl, fun _ => rfl, fun _ => rfl,
   fun q => repair_scalar_float q⟩

/-- Counterexample to C10 as stated: the array ["pain_index"] matches
the membership guard and raises TypeError instead of passing through. -/
theorem C10_counterexample :
    analyze_insights_repair (.jarr [.jstr "pain_index"]) =
      .error .typeError := by
  decide

/-- Witness for C10: a guard-free array passes through unchanged. -/
theorem C10_nonobject_payloads_witness :
    analyze_insights_repair (.jarr [.jstr "hello", .jint 3]) =
      .ok (.jarr [.jstr "hello", .jint 3]) :=
  C10_nonobject_payloads.1 [.jstr "hello", .jint 3] (by decide)
